import Mathlib

/-!
# Replica renderer: the render orchestration of `ReplicaSDK/src/render.cpp`

A shallow embedding of `main` of `render.cpp`: the camera pose algebra, the
per-frame multi-pass command sequence, the file names and the depth
conversion, followed by the properties proved about them.

Conventions of the embedding.

* A number is the exact rational value the program holds: a `float` literal
  is its binary32 value, a `double` literal its binary64 value.
* `Eigen::Matrix4d` is a 4x4 matrix of such values.  Products and inverses of
  matrices are the exact ones; the program rounds their entries to binary64.
* The depth conversion adds in binary32, rounding to nearest, ties to even.
* The GPU, the mesh renderer, the mirror renderer and the image encoder are
  external.  A call into one of them is recorded as an `Event`, in program
  order, in the `trace` field of the program state.  Console output and the
  one-off set-up calls before the frame loop (context, frame buffer objects,
  winding order) are not recorded.
* `size_t` loop counters never overflow in `main` (each is bounded by a
  length), so they are natural numbers.
-/

namespace Replica

/-! ## Binary floating point -/

/-- Rounding of an exact value to the nearest integer, ties to the even one. -/
def roundEven (q : ℚ) : ℤ :=
  if q - ⌊q⌋ < 1 / 2 then ⌊q⌋
  else if 1 / 2 < q - ⌊q⌋ then ⌊q⌋ + 1
  else if ⌊q⌋ % 2 = 0 then ⌊q⌋ else ⌊q⌋ + 1

/-- The exponent of the unit in the last place of binary32 at `x`: 23 below the
exponent of `x`, and -149 in the subnormal range. -/
def ulpExp32 (x : ℚ) : ℤ := max (Int.log 2 |x| - 23) (-149)

/-- The binary32 value of a literal or of an operation whose exact value is
`x`: the nearest multiple of the unit in the last place, ties to even.
(Results beyond the largest finite binary32 value, which become infinite, do
not occur here: adding 0.5 to a finite binary32 value never overflows.) -/
def roundF32 (x : ℚ) : ℚ := roundEven (x / 2 ^ ulpExp32 x) * 2 ^ ulpExp32 x

/-- A finite binary32 value: a significand below `2^24` times a power of two
between `2^-149` and `2^104`. -/
def IsF32 (x : ℚ) : Prop :=
  ∃ m e : ℤ, |m| < 2 ^ 24 ∧ -149 ≤ e ∧ e ≤ 104 ∧ x = m * 2 ^ e

/-- The exponent of the unit in the last place of binary64 at `x`: 52 below the
exponent of `x`, and -1074 in the subnormal range. -/
def ulpExp64 (x : ℚ) : ℤ := max (Int.log 2 |x| - 52) (-1074)

/-- The binary64 value of a literal whose exact value is `x`: the nearest
multiple of the unit in the last place, ties to even. -/
def roundF64 (x : ℚ) : ℚ := roundEven (x / 2 ^ ulpExp64 x) * 2 ^ ulpExp64 x

/-! ## Camera pose algebra -/

/-- A value of `Eigen::Matrix4d`.  Products and inverses are taken exactly;
the program rounds their entries to binary64, so a statement that an exact
product equals some value is a statement about the exact product only. -/
abbrev Mat4 := Matrix (Fin 4) (Fin 4) ℚ

/-- The call `M.inverse()` of Eigen on a fixed-size 4x4 matrix: the cofactor
formula, adjugate divided by determinant.  Over exact arithmetic a singular
matrix has no inverse; the division by the zero determinant then follows the
convention `x / 0 = 0` of the rationals. -/
def inverse (A : Mat4) : Mat4 := (A.det)⁻¹ • A.adjugate

/-- The literal `0.9961f` (line 76): its binary32 value, `16711785 / 2^24`. -/
def lit_0_9961f : ℚ := 16711785 / 16777216

/-- The literal `0.0871f` (line 76): its binary32 value, `2922591 / 2^25`. -/
def lit_0_0871f : ℚ := 2922591 / 33554432

/-- The literal `0.025` (line 76), a `double`: its binary64 value,
`3602879701896397 / 2^57`. -/
def lit_0_025 : ℚ := 3602879701896397 / 144115188075855872

/-- The literal `0.06` (line 112), a `double`: its binary64 value,
`1080863910568919 / 2^54`. -/
def lit_0_06 : ℚ := 1080863910568919 / 18014398509481984

/-- The trajectory step `T_new_old` (render.cpp lines 75-79). -/
def T_new_old : Mat4 :=
  !![lit_0_9961f, -lit_0_0871f, 0, lit_0_025;
     lit_0_0871f, lit_0_9961f, 0, 0;
     0, 0, 1, 0;
     0, 0, 0, 1]

/-- The stereo baseline `T`, left to right (render.cpp lines 110-114). -/
def T : Mat4 :=
  !![1, 0, 0, 0;
     0, 1, 0, -lit_0_06;
     0, 0, 1, 0;
     0, 0, 0, 1]

/-- Line 127, `T_camera_world = T_camera_world * T.inverse()`, for a baseline `b`. -/
def applyRight (pose b : Mat4) : Mat4 := pose * inverse b

/-- Line 181, `T_camera_world = T_camera_world * T`, for a baseline `b`. -/
def undoRight (pose b : Mat4) : Mat4 := pose * b

/-- Line 214, `T_camera_world = T_camera_world * T_new_old.inverse()`, for a step. -/
def advanceTrajectory (pose step : Mat4) : Mat4 := pose * inverse step

/-! ## Constants of `main` -/

/-- Output width (line 25). -/
def width : ℕ := 848

/-- Output height (line 26). -/
def height : ℕ := 800

/-- The flag `renderDepth` (line 27). -/
def renderDepth : Bool := true

/-- The constant `depthScale = 65535.0f * 0.1f` (line 28): the binary32 product
is 6553.5, which is also the exact value of `65535 * 0.1`. -/
def depthScale : ℚ := 65535 * 0.1

/-- The constant `numFrames` (line 107). -/
def numFrames : ℕ := 100

/-! ## Depth conversion -/

/-- Conversion of a real value to an integer as C++ does it: the fractional
part is discarded (rounding toward zero). -/
def truncate (x : ℚ) : ℤ := Int.tdiv x.num x.den

/-- The per-pixel conversion `static_cast<uint16_t>(d + 0.5f)` (line 206) of a
binary32 depth `d`: the sum is rounded to binary32, then converted.  The
conversion is defined when the truncated value fits the 16-bit target;
otherwise the behaviour is undefined in C++ and the result is `none`. -/
def quantize (d : ℚ) : Option ℕ :=
  let t := truncate (roundF32 (d + 0.5))
  if 0 ≤ t ∧ t < 65536 then some t.toNat else none

/-- The largest binary32 value below one half, `0.5 - 2^-25` (bit pattern
0x3EFFFFFF). -/
def belowHalf : ℚ := 16777215 / 33554432

/-- The conversion loop of lines 204-207 over a downloaded depth image. -/
def convertDepthImage (depthImage : List ℚ) : List (Option ℕ) :=
  depthImage.map quantize

/-! ## File names -/

/-- The decimal digits of a `size_t` as `%zu` prints them. -/
def decimal (n : ℕ) : List Char :=
  if n = 0 then ['0'] else (Nat.digits 10 n).reverse.map Nat.digitChar

/-- The conversion `%06zu` of `snprintf`: the decimal digits, padded on the
left with zeros to a minimum width of 6. -/
def fmt06zu (n : ℕ) : String :=
  String.mk (List.replicate (6 - (decimal n).length) '0' ++ decimal n)

/-- Line 167: `snprintf(filename, 1000, "frame%06zu_left.jpg", i)`. -/
def leftName (i : ℕ) : String := "frame" ++ fmt06zu i ++ "_left.jpg"

/-- Line 171: `snprintf(filename, 1000, "frame%06zu_right.jpg", i)`. -/
def rightName (i : ℕ) : String := "frame" ++ fmt06zu i ++ "_right.jpg"

/-- Line 208: `snprintf(filename, 1000, "depth%06zu.png", i)`. -/
def depthName (i : ℕ) : String := "depth" ++ fmt06zu i ++ ".png"

/-! ## Events and program state -/

/-- A mirror surface, built from one entry of the mirror file (line 91). -/
structure MirrorSurface where
  json : String
deriving DecidableEq, Repr

/-- The two render targets: `frameBuffer` (colour) and `depthFrameBuffer`. -/
inductive Target where
  | colour
  | depth
deriving DecidableEq, Repr

/-- The calls `main` issues to its collaborators inside the frame loop. -/
inductive Event where
  /-- The call `frameBuffer.Bind()` or `depthFrameBuffer.Bind()`. -/
  | bind (t : Target)
  /-- The call `glPushAttrib(GL_VIEWPORT_BIT)`. -/
  | pushViewport
  /-- The call `glViewport(0, 0, w, h)`. -/
  | viewport (w h : ℕ)
  /-- The call `glClear(GL_DEPTH_BUFFER_BIT | GL_COLOR_BUFFER_BIT)`. -/
  | clear
  /-- The call `glEnable(GL_CULL_FACE)`. -/
  | enableCull
  /-- The call `ptexMesh.Render(s_cam)`, with the model-view matrix of `s_cam`. -/
  | render (s_cam : Mat4)
  /-- The call `ptexMesh.RenderDepth(s_cam, depthScale)`. -/
  | renderDepth (s_cam : Mat4) (scale : ℚ)
  /-- The call `glDisable(GL_CULL_FACE)`. -/
  | disableCull
  /-- The call `glPopAttrib()`. -/
  | popViewport
  /-- The call `frameBuffer.Unbind()` or `depthFrameBuffer.Unbind()`. -/
  | unbind (t : Target)
  /-- The call `mirrorRenderer.CaptureReflection(mirror, ptexMesh, s_cam, frontFace)`. -/
  | captureReflection (mirror : MirrorSurface) (s_cam : Mat4)
  /-- The call `mirrorRenderer.Render(mirror, mirrorRenderer.GetMaskTexture(mask), s_cam)`. -/
  | renderMirror (mirror : MirrorSurface) (mask : ℕ) (s_cam : Mat4)
  /-- The call `render.Download(..)` (colour) or `depthTexture.Download(..)` (depth). -/
  | download (t : Target)
  /-- The conversion loop of lines 204-207. -/
  | convertDepth
  /-- The call `pangolin::SaveImage(.., PixelFormatFromString(fmt), filename)`. -/
  | saveImage (fmt : String) (filename : String)
  /-- The assignment `s_cam.GetModelViewMatrix() = T_camera_world` after a pose update. -/
  | setPose (pose : Mat4)

/-- The variables of `main` the frame loop changes, and the calls issued so far. -/
structure State where
  T_camera_world : Mat4
  s_cam : Mat4
  trace : List Event

/-- Issue calls: they are appended to the trace in program order. -/
def State.emit (s : State) (es : List Event) : State :=
  { s with trace := s.trace ++ es }

/-- The loop `for (size_t i = 0; i < n; i++) body`. -/
def forLoop {σ : Type} : ℕ → (ℕ → σ → σ) → σ → σ
  | 0, _, s => s
  | n + 1, body, s => body n (forLoop n body s)

/-! ## The frame loop of `main` -/

/-- Lines 131-143: the colour pass into `frameBuffer`. -/
def colourPass (s : State) : State :=
  s.emit [.bind .colour, .pushViewport, .viewport width height, .clear,
    .enableCull, .render s.s_cam, .disableCull, .popViewport, .unbind .colour]

/-- Lines 147-159: the body of the mirror loop for index `i`. -/
def mirrorBody (mirrors : List MirrorSurface) (i : ℕ) (s : State) : State :=
  match mirrors[i]? with
  | none => s
  | some mirror =>
    s.emit [.captureReflection mirror s.s_cam, .bind .colour, .pushViewport,
      .viewport width height, .renderMirror mirror i s.s_cam, .popViewport,
      .unbind .colour]

/-- Lines 145-160: `for (size_t i = 0; i < mirrors.size(); i++)`. -/
def mirrorLoop (mirrors : List MirrorSurface) (s : State) : State :=
  forLoop mirrors.length (mirrorBody mirrors) s

/-- Lines 123-177: the body of the loop over the two eyes, `j = 0` (left) and
`j = 1` (right), within frame `i`. -/
def eyeBody (mirrors : List MirrorSurface) (i j : ℕ) (s : State) : State :=
  let s :=
    if j = 1 then
      let p := applyRight s.T_camera_world T
      ({ s with T_camera_world := p, s_cam := p }).emit [.setPose p]
    else s
  let s := colourPass s
  let s := mirrorLoop mirrors s
  let s := s.emit [.download .colour]
  let filename := if j = 0 then leftName i else rightName i
  s.emit [.saveImage "RGB24" filename]

/-- Lines 184-212: the depth pass, conversion and save of frame `i`. -/
def depthPass (i : ℕ) (s : State) : State :=
  s.emit [.bind .depth, .pushViewport, .viewport width height, .clear,
    .enableCull, .renderDepth s.s_cam depthScale, .disableCull, .popViewport,
    .unbind .depth, .download .depth, .convertDepth,
    .saveImage "GRAY16LE" (depthName i)]

/-- Lines 118-215: the body of the frame loop for frame `i`. -/
def frameBody (mirrors : List MirrorSurface) (depthOn : Bool) (i : ℕ) (s : State) : State :=
  let s := forLoop 2 (eyeBody mirrors i) s
  let p := undoRight s.T_camera_world T
  let s := ({ s with T_camera_world := p, s_cam := p }).emit [.setPose p]
  let s := if depthOn then depthPass i s else s
  let q := advanceTrajectory s.T_camera_world T_new_old
  ({ s with T_camera_world := q, s_cam := q }).emit [.setPose q]

/-- Lines 116-216: `for (size_t i = 0; i < numFrames; i++)`, for a frame count
`n` and a depth flag; `main` runs it with `numFrames` and `renderDepth`. -/
def renderFrames (n : ℕ) (depthOn : Bool) (mirrors : List MirrorSurface) (s : State) : State :=
  forLoop n (frameBody mirrors depthOn) s

/-- The state before frame 0: `T_camera_world` is read from `s_cam` (line 72). -/
def initState (P0 : Mat4) : State :=
  { T_camera_world := P0, s_cam := P0, trace := [] }

/-! ## Start-up of `main` -/

/-- What `main` reads from its surroundings. -/
structure Env where
  /-- The function `pangolin::FileExists`. -/
  fileExists : String → Bool
  /-- The result of `checkGLVersion()`. -/
  checkGLVersion : Bool
  /-- The matrix `pangolin::ModelViewLookAtRDF(0, 0, 0.75, 0.75, 0, 0.75, 0, 0, 1)`. -/
  lookAt : Mat4
  /-- The mirror surfaces parsed from a mirror file (lines 85-92). -/
  loadMirrors : String → List MirrorSurface

/-- How the process ends. -/
inductive Exit where
  /-- A failed `ASSERT`: the process aborts. -/
  | aborted
  /-- The statement `return code` of `main`. -/
  | returned (code : ℤ)
deriving DecidableEq, Repr

/-- The exit status is not zero. -/
def Exit.nonzero : Exit → Prop
  | .aborted => True
  | .returned c => c ≠ 0

instance (e : Exit) : Decidable e.nonzero := by
  cases e <;> unfold Exit.nonzero <;> infer_instance

/-- Modelled from the spec: the macro `ASSERT` is defined in a header that is
not among the sources; by the spec a failed check of the argument count or of a path aborts
the process with a diagnostic and a non-zero status.  `assertOr c k` is
`ASSERT(c)` followed by `k`. -/
def assertOr (c : Bool) (k : Exit × List Event) : Exit × List Event :=
  if c then k else (Exit.aborted, [])

/-- The function `main` (lines 9-220): `argv` holds the program name and the
arguments, `argc` is its length.  The result is the exit and the calls issued. -/
def main (env : Env) (argv : List String) : Exit × List Event :=
  let argc := argv.length
  assertOr (argc == 3 || argc == 4) <|
  let meshFile := argv.getD 1 ""
  let atlasFolder := argv.getD 2 ""
  assertOr (env.fileExists meshFile) <|
  assertOr (env.fileExists atlasFolder) <|
  let surfaceFile := if argc = 4 then argv.getD 3 "" else ""
  assertOr (if argc = 4 then env.fileExists surfaceFile else true) <|
  if !env.checkGLVersion then (Exit.returned 1, [])
  else
    let mirrors := if surfaceFile.length ≠ 0 then env.loadMirrors surfaceFile else []
    let s := renderFrames numFrames renderDepth mirrors (initState env.lookAt)
    (Exit.returned 0, s.trace)

/-! ## Observations on a trace -/

/-- The names of the files written, in order. -/
def savedFiles : List Event → List String
  | [] => []
  | .saveImage _ name :: es => name :: savedFiles es
  | _ :: es => savedFiles es

/-- The names of the files written in a given pixel format, in order. -/
def savedAs (fmt : String) : List Event → List String
  | [] => []
  | .saveImage f name :: es => if f = fmt then name :: savedAs fmt es else savedAs fmt es
  | _ :: es => savedAs fmt es

/-- The values assigned to the camera pose, in order. -/
def poseUpdates : List Event → List Mat4
  | [] => []
  | .setPose p :: es => p :: poseUpdates es
  | _ :: es => poseUpdates es

/-- The calls into the mirror renderer. -/
def Event.isMirror : Event → Bool
  | .captureReflection _ _ => true
  | .renderMirror _ _ _ => true
  | _ => false

/-- The saving and restoring of the viewport attribute around a pass. -/
def Event.isViewportBracket : Event → Bool
  | .pushViewport => true
  | .popViewport => true
  | _ => false

/-- A trace without the viewport save and restore calls. -/
def dropBrackets (es : List Event) : List Event :=
  es.filter (fun e => !e.isViewportBracket)

/-- The spans of a trace that start at a bind of the depth target and end at
the next file save, both included; `cur` is the span being collected. -/
def depthSpansFrom : Option (List Event) → List Event → List (List Event)
  | _, [] => []
  | none, .bind .depth :: es => depthSpansFrom (some [.bind .depth]) es
  | none, _ :: es => depthSpansFrom none es
  | some cur, .saveImage f n :: es => (cur ++ [.saveImage f n]) :: depthSpansFrom none es
  | some cur, e :: es => depthSpansFrom (some (cur ++ [e])) es

/-- The depth-pass spans of a trace, in order. -/
def depthSpans (es : List Event) : List (List Event) := depthSpansFrom none es

/-- Whether every reflection capture of a trace is issued while the colour
target is not bound; `isBound` tells whether it is bound at the start. -/
def capturesUnbound : Bool → List Event → Bool
  | _, [] => true
  | _, .bind .colour :: es => capturesUnbound true es
  | _, .unbind .colour :: es => capturesUnbound false es
  | isBound, .captureReflection _ _ :: es => !isBound && capturesUnbound isBound es
  | isBound, _ :: es => capturesUnbound isBound es

/-- The binding state of the render targets: none bound, or one target bound
with the viewport attribute not yet saved (phase 0), saved (phase 1) or
restored again (phase 2). -/
inductive BindState where
  | idle
  | bound (t : Target) (phase : Fin 3)
deriving DecidableEq, Repr

/-- One step of the binding discipline; `none` is a violation.  A bind needs
no target bound; the viewport is saved once and then restored once inside a
span; an unbind releases the bound target after the restore; downloads, the
host-side conversion, file saves and pose updates need no target bound. -/
def bindStep : BindState → Event → Option BindState
  | .idle, .bind t => some (.bound t 0)
  | .bound _ _, .bind _ => none
  | .bound t 0, .pushViewport => some (.bound t 1)
  | _, .pushViewport => none
  | .bound t 1, .popViewport => some (.bound t 2)
  | _, .popViewport => none
  | .bound t 2, .unbind u => if t = u then some .idle else none
  | _, .unbind _ => none
  | .idle, .download _ => some .idle
  | .bound _ _, .download _ => none
  | .idle, .convertDepth => some .idle
  | .bound _ _, .convertDepth => none
  | .idle, .saveImage _ _ => some .idle
  | .bound _ _, .saveImage _ _ => none
  | .idle, .setPose _ => some .idle
  | .bound _ _, .setPose _ => none
  | s, _ => some s

/-- The binding discipline along a trace, from a given state. -/
def bindRun : BindState → List Event → Option BindState
  | s, [] => some s
  | s, e :: es => (bindStep s e).bind (fun s1 => bindRun s1 es)

/-- A trace is balanced: it keeps the binding discipline and ends with no
target bound. -/
def balanced (es : List Event) : Bool := bindRun .idle es == some .idle

/-! ## The state machine of the specification (section 4.4) -/

/-- Step 1: the colour pass for a camera pose. -/
def specColourPass (pose : Mat4) : List Event :=
  [.bind .colour, .pushViewport, .viewport 848 800, .clear, .enableCull,
    .render pose, .disableCull, .popViewport, .unbind .colour]

/-- Section 4.3: capture, then draw, of the mirror with index `j`. -/
def specMirrorBlock (pose : Mat4) (j : ℕ) (m : MirrorSurface) : List Event :=
  [.captureReflection m pose, .bind .colour, .pushViewport, .viewport 848 800,
    .renderMirror m j pose, .popViewport, .unbind .colour]

/-- Section 4.3: the mirror compositor, mirror by mirror in input order. -/
def specMirrors (mirrors : List MirrorSurface) (pose : Mat4) : List Event :=
  mirrors.enum.flatMap (fun jm => specMirrorBlock pose jm.1 jm.2)

/-- The compositor block of one mirror in the words of the protocol: capture,
bind the colour target, set the viewport, draw with the mask of the same
index, unbind. -/
def protocolBlock (pose : Mat4) (j : ℕ) (m : MirrorSurface) : List Event :=
  [.captureReflection m pose, .bind .colour, .viewport 848 800,
    .renderMirror m j pose, .unbind .colour]

/-- Step 8: the depth pass, conversion and save of frame `i`. -/
def specDepthPass (i : ℕ) (pose : Mat4) : List Event :=
  [.bind .depth, .pushViewport, .viewport 848 800, .clear, .enableCull,
    .renderDepth pose (65535 * 0.1), .disableCull, .popViewport, .unbind .depth,
    .download .depth, .convertDepth, .saveImage "GRAY16LE" (depthName i)]

/-- The pose after the stereo shift of a frame entered with pose `P`. -/
def shiftedPose (P : Mat4) : Mat4 := P * inverse T

/-- The pose after the restore of a frame entered with pose `P`. -/
def restoredPose (P : Mat4) : Mat4 := shiftedPose P * T

/-- The pose after the trajectory advance of a frame entered with pose `P`. -/
def nextPose (P : Mat4) : Mat4 := restoredPose P * inverse T_new_old

/-- The states of section 4.4 for frame `i` entered with pose `P`, in order:
LeftPass, MirrorsLeft, SaveLeft, ShiftToRight, RightPass, MirrorsRight,
SaveRight, RestoreToLeft, DepthPass with SaveDepth, AdvanceTrajectory. -/
def specFrame (mirrors : List MirrorSurface) (i : ℕ) (P : Mat4) : List Event :=
  specColourPass P
  ++ specMirrors mirrors P
  ++ [.download .colour, .saveImage "RGB24" (leftName i)]
  ++ [.setPose (shiftedPose P)]
  ++ specColourPass (shiftedPose P)
  ++ specMirrors mirrors (shiftedPose P)
  ++ [.download .colour, .saveImage "RGB24" (rightName i)]
  ++ [.setPose (restoredPose P)]
  ++ specDepthPass i (restoredPose P)
  ++ [.setPose (nextPose P)]

/-- The pose on entry to frame `k` for the state machine started at `P0`. -/
def specPose (P0 : Mat4) : ℕ → Mat4
  | 0 => P0
  | k + 1 => nextPose (specPose P0 k)

/-- A frame of the pipeline with the mirror steps 2 and 5 omitted. -/
def frameWithoutMirrors (i : ℕ) (P : Mat4) : List Event :=
  specColourPass P
  ++ [.download .colour, .saveImage "RGB24" (leftName i)]
  ++ [.setPose (shiftedPose P)]
  ++ specColourPass (shiftedPose P)
  ++ [.download .colour, .saveImage "RGB24" (rightName i)]
  ++ [.setPose (restoredPose P)]
  ++ specDepthPass i (restoredPose P)
  ++ [.setPose (nextPose P)]

/-- The six decimal digits of an index below one million, most significant first. -/
def sixDigits (i : ℕ) : String :=
  String.mk [Nat.digitChar (i / 100000 % 10), Nat.digitChar (i / 10000 % 10),
    Nat.digitChar (i / 1000 % 10), Nat.digitChar (i / 100 % 10),
    Nat.digitChar (i / 10 % 10), Nat.digitChar (i % 10)]

/-- The files of frame `i`, in the order they are written. -/
def frameFiles (i : ℕ) : List String := [leftName i, rightName i, depthName i]

/-! ## Rigid transforms -/

/-- The upper-left 3x3 block of a pose. -/
def rot3 (M : Mat4) : Matrix (Fin 3) (Fin 3) ℚ :=
  !![M 0 0, M 0 1, M 0 2;
     M 1 0, M 1 1, M 1 2;
     M 2 0, M 2 1, M 2 2]

/-- The bottom row of a pose is (0, 0, 0, 1). -/
def BottomRow (M : Mat4) : Prop := M 3 0 = 0 ∧ M 3 1 = 0 ∧ M 3 2 = 0 ∧ M 3 3 = 1

/-- A rigid transform: the 3x3 block is a rotation and the bottom row is (0, 0, 0, 1). -/
def IsRigid (M : Mat4) : Prop :=
  (rot3 M).transpose * rot3 M = 1 ∧ (rot3 M).det = 1 ∧ BottomRow M

/-- The determinant of the 3x3 block of the inverse of `T_new_old`: the
inverse of `0.9961f^2 + 0.0871f^2`, about 1.0001984. -/
def stepScale : ℚ := 1 / (lit_0_9961f ^ 2 + lit_0_0871f ^ 2)

/-- The look-at pose for the arguments of line 69 (eye (0, 0, 0.75), target
(0.75, 0, 0.75), up (0, 0, 1), right-down-forward axes): rows right (0, -1, 0),
down (0, 0, -1), forward (1, 0, 0). -/
def lookAtPose : Mat4 :=
  !![0, -1, 0, 0;
     0, 0, -1, 0.75;
     1, 0, 0, 0;
     0, 0, 0, 1]

/-! ## Auxiliary definitions for the proofs -/

/-- The inverse of the stereo baseline. -/
def T_inv : Mat4 :=
  !![1, 0, 0, 0;
     0, 1, 0, lit_0_06;
     0, 0, 1, 0;
     0, 0, 0, 1]

/-- The inverse of the trajectory step. -/
def S_inv : Mat4 :=
  !![lit_0_9961f * stepScale, lit_0_0871f * stepScale, 0,
       -(lit_0_025 * lit_0_9961f * stepScale);
     -(lit_0_0871f * stepScale), lit_0_9961f * stepScale, 0,
       lit_0_025 * lit_0_0871f * stepScale;
     0, 0, 1, 0;
     0, 0, 0, 1]

/-- The calls of the frames `0 .. n-1` of the state machine started at `P0`. -/
def specRun (mirrors : List MirrorSurface) (P0 : Mat4) (n : ℕ) : List Event :=
  (List.range n).flatMap (fun i => specFrame mirrors i (specPose P0 i))

/-- The number a string of decimal digits stands for. -/
def decode (cs : List Char) : ℕ :=
  Nat.ofDigits 10 (cs.reverse.map (fun c => c.toNat - 48))

/-- The colour part of a frame: every state before the depth pass. -/
def colourPhase (mirrors : List MirrorSurface) (i : ℕ) (P : Mat4) : List Event :=
  specColourPass P
  ++ specMirrors mirrors P
  ++ [.download .colour, .saveImage "RGB24" (leftName i)]
  ++ [.setPose (shiftedPose P)]
  ++ specColourPass (shiftedPose P)
  ++ specMirrors mirrors (shiftedPose P)
  ++ [.download .colour, .saveImage "RGB24" (rightName i)]
  ++ [.setPose (restoredPose P)]

/-- A piece of trace in which no depth span starts. -/
def NoDepthSpan (a : List Event) : Prop :=
  ∀ rest, depthSpansFrom none (a ++ rest) = depthSpansFrom none rest

/-- A piece of trace that starts and ends with the colour target unbound and
captures reflections only while it is unbound. -/
def CaptureSafe (a : List Event) : Prop :=
  ∀ rest, capturesUnbound false (a ++ rest) = capturesUnbound false rest

/-- The argument count is 3 or 4 (program name included). -/
def argcOk (argv : List String) : Bool := argv.length == 3 || argv.length == 4

/-- Every path given on the command line exists. -/
def pathsOk (env : Env) (argv : List String) : Bool := argv.tail.all env.fileExists

/-- All start-up checks pass: argument count, paths, graphics version. -/
def startOk (env : Env) (argv : List String) : Bool :=
  argcOk argv && pathsOk env argv && env.checkGLVersion

/-- The mirror list of a run: read from the mirror file when one is given
under a non-empty name, empty otherwise (lines 82-94). -/
def mirrorsOf (env : Env) (argv : List String) : List MirrorSurface :=
  if argv.length = 4 ∧ (argv.getD 3 "").length ≠ 0 then env.loadMirrors (argv.getD 3 "") else []

/-- A sample environment: every path exists, the version check passes, no mirrors. -/
def sampleEnv : Env :=
  { fileExists := fun _ => true, checkGLVersion := true, lookAt := lookAtPose,
    loadMirrors := fun _ => [] }

/-- A sample environment in which the graphics version check fails. -/
def oldGLEnv : Env :=
  { fileExists := fun _ => true, checkGLVersion := false, lookAt := lookAtPose,
    loadMirrors := fun _ => [] }

/-- A sample environment in which no path exists. -/
def noFilesEnv : Env :=
  { fileExists := fun _ => false, checkGLVersion := true, lookAt := lookAtPose,
    loadMirrors := fun _ => [] }

/-! ## Lemmas -/

/-! ### Depth conversion -/

theorem truncate_of_nonneg (x : ℚ) (hx : 0 ≤ x) : truncate x = ⌊x⌋ := by
  unfold truncate
  rw [Rat.floor_def, Int.tdiv_eq_ediv (Rat.num_nonneg.mpr hx) (by exact_mod_cast Nat.zero_le _)]

theorem floor_le_roundEven (q : ℚ) : ⌊q⌋ ≤ roundEven q := by
  unfold roundEven
  split_ifs <;> omega

theorem roundEven_le (q : ℚ) : (roundEven q : ℚ) ≤ q + 1 / 2 := by
  unfold roundEven
  have h1 := Int.floor_le q
  split_ifs with h1' h2 h3
  · linarith
  · push_cast; linarith
  · linarith
  · push_cast
    have : q - ⌊q⌋ = 1 / 2 := le_antisymm (not_lt.mp h2) (not_lt.mp h1')
    linarith

/-- A binary32 value of size at least `2^23 / 2^r` is a multiple of `1 / 2^r`. -/
theorem isF32_mul_pow (x : ℚ) (hx : IsF32 x) (r : ℕ) (h : (2 : ℚ) ^ 23 ≤ x * 2 ^ r) :
    ∃ z : ℤ, x * 2 ^ r = z := by
  obtain ⟨m, e, hm, _, _, rfl⟩ := hx
  have hmlt : (m : ℚ) < 2 ^ 24 := by
    have : m < 2 ^ 24 := lt_of_le_of_lt (le_abs_self m) hm
    exact_mod_cast this
  have h2pos : (0 : ℚ) < 2 ^ e := zpow_pos (by norm_num) e
  have hrpos : (0 : ℚ) < 2 ^ r := pow_pos (by norm_num) r
  have hmpos : (0 : ℚ) < m := by
    by_contra hneg
    have hm0 : (m : ℚ) ≤ 0 := not_lt.mp hneg
    have : (m : ℚ) * 2 ^ e * 2 ^ r ≤ 0 :=
      mul_nonpos_of_nonpos_of_nonneg (mul_nonpos_of_nonpos_of_nonneg hm0 h2pos.le) hrpos.le
    have h23 : (0 : ℚ) < 2 ^ 23 := by norm_num
    linarith
  -- 2^23 ≤ m * 2^(e+r) < 2^24 * 2^(e+r), hence e + r ≥ 0
  have hprod : (m : ℚ) * 2 ^ e * 2 ^ r = m * 2 ^ (e + r) := by
    rw [mul_assoc, zpow_add₀ (by norm_num : (2 : ℚ) ≠ 0), zpow_natCast]
  rw [hprod] at h ⊢
  have hge : 0 ≤ e + r := by
    by_contra hlt
    have hlt' : e + r ≤ -1 := by omega
    have hp : (2 : ℚ) ^ (e + r) ≤ 2 ^ (-1 : ℤ) :=
      zpow_le_zpow_right₀ (by norm_num) hlt'
    have hp' : (2 : ℚ) ^ (-1 : ℤ) = 1 / 2 := by norm_num
    have : (m : ℚ) * 2 ^ (e + r) < 2 ^ 24 * (1 / 2) := by
      calc (m : ℚ) * 2 ^ (e + r) ≤ m * (1 / 2) := by
            rw [← hp']; exact mul_le_mul_of_nonneg_left hp hmpos.le
        _ < 2 ^ 24 * (1 / 2) := by linarith
    norm_num at this h
    linarith
  obtain ⟨t, ht⟩ := Int.eq_ofNat_of_zero_le hge
  refine ⟨m * 2 ^ t, ?_⟩
  rw [ht, zpow_natCast]
  push_cast
  ring

/-- The rounding exponent of a value in `[1/2, 65536)`: the value scaled by
`2^t` lies in `[2^23, 2^24)` for some `t` from 8 to 24, and is rounded there. -/
theorem binade_of_range (s : ℚ) (h0 : 1 / 2 ≤ s) (h1 : s < 65536) :
    ∃ t : ℕ, 8 ≤ t ∧ t ≤ 24 ∧ (2 : ℚ) ^ 23 ≤ s * 2 ^ t ∧ s * 2 ^ t < 2 ^ 24 ∧
      roundF32 s = roundEven (s * 2 ^ t) / 2 ^ t := by
  have hpos : 0 < s := by linarith
  have habs : |s| = s := abs_of_pos hpos
  have hle : (2 : ℚ) ^ Int.log 2 s ≤ s := by
    have := Int.zpow_log_le_self (b := 2) (r := s) (by norm_num) hpos
    simpa using this
  have hlt : s < (2 : ℚ) ^ (Int.log 2 s + 1) := by
    have := Int.lt_zpow_succ_log_self (b := 2) (by norm_num) s
    simpa using this
  have hk1 : -1 ≤ Int.log 2 s := by
    rw [← Int.zpow_le_iff_le_log (b := 2) (by norm_num) hpos]
    norm_num
    linarith
  have hk2 : Int.log 2 s < 16 := by
    rw [← Int.lt_zpow_iff_log_lt (b := 2) (by norm_num) hpos]
    norm_num
    linarith
  obtain ⟨t, ht⟩ := Int.eq_ofNat_of_zero_le (show 0 ≤ 23 - Int.log 2 s by omega)
  have hk : Int.log 2 s = 23 - (t : ℤ) := by omega
  have hu : ulpExp32 s = -(t : ℤ) := by
    unfold ulpExp32
    rw [habs, hk]
    have : (-149 : ℤ) ≤ 23 - (t : ℤ) - 23 := by omega
    rw [max_eq_left this]
    ring
  have htpos : (0 : ℚ) < 2 ^ t := pow_pos (by norm_num) t
  have hpow : (2 : ℚ) ^ (-(t : ℤ)) = (2 ^ t)⁻¹ := by
    rw [zpow_neg, zpow_natCast]
  have e1 : (2 : ℚ) ^ Int.log 2 s * 2 ^ t = 2 ^ 23 := by
    rw [hk, ← zpow_natCast (2 : ℚ) t, ← zpow_add₀ (by norm_num : (2 : ℚ) ≠ 0)]
    norm_num
  have e2 : (2 : ℚ) ^ (Int.log 2 s + 1) * 2 ^ t = 2 ^ 24 := by
    rw [hk, ← zpow_natCast (2 : ℚ) t, ← zpow_add₀ (by norm_num : (2 : ℚ) ≠ 0)]
    have : (23 - (t : ℤ) + 1 + (t : ℤ)) = 24 := by ring
    rw [this]
    norm_num
  refine ⟨t, by omega, by omega, ?_, ?_, ?_⟩
  · rw [← e1]; exact mul_le_mul_of_nonneg_right hle htpos.le
  · rw [← e2]; exact mul_lt_mul_of_pos_right hlt htpos
  · unfold roundF32
    rw [hu, hpow, div_inv_eq_mul, div_eq_mul_inv]

/-- From the binade `[1, 2)` upwards the sum `d + 1/2` of a binary32 `d` is
never rounded up to the next integer. -/
theorem roundEven_lt_of_float (d : ℚ) (hF : IsF32 d) (t : ℕ) (ht8 : 8 ≤ t) (ht : t ≤ 23)
    (n : ℤ) (hn2 : d + 1 / 2 < n + 1)
    (hB : (2 : ℚ) ^ 23 ≤ n * 2 ^ t) :
    (d + 1 / 2) * 2 ^ t + 1 / 2 < (n + 1) * 2 ^ t := by
  by_contra hG
  have hG' := not_lt.mp hG
  have hA1 : (1 : ℚ) ≤ 2 ^ t := one_le_pow₀ (by norm_num)
  have hA : (2 : ℚ) ^ (t + 1) = 2 * 2 ^ t := by rw [pow_succ]; ring
  obtain ⟨z, hz⟩ := isF32_mul_pow d hF (t + 1) (by
    rw [hA]
    have : (2 : ℚ) ^ t ≤ 2 ^ 23 := pow_le_pow_right₀ (by norm_num) ht
    nlinarith)
  obtain ⟨z', hz'⟩ := isF32_mul_pow d hF t (by nlinarith)
  rw [hA] at hz
  have hzz : z = 2 * z' := by
    have : (z : ℚ) = 2 * z' := by rw [← hz, ← hz']; ring
    exact_mod_cast this
  -- the gap (2n+1) * 2^t - z is an integer in (0, 1]
  obtain ⟨y, hy⟩ : ∃ y : ℤ, (2 : ℤ) ^ t = 2 * y := ⟨2 ^ (t - 1), by
    rw [← pow_succ']; congr 1; omega⟩
  have hyq : (2 : ℚ) ^ t = 2 * y := by exact_mod_cast hy
  have hpos : (0 : ℚ) < ((2 * (2 * n + 1) * y - 2 * z' : ℤ) : ℚ) := by
    push_cast
    have e : d * 2 ^ t = z' := hz'
    rw [hyq] at e hA1
    have hy0 : (0 : ℚ) < y := by linarith
    have h := mul_lt_mul_of_pos_right hn2 hy0
    linarith
  have hle : (((2 * (2 * n + 1) * y - 2 * z' : ℤ) : ℚ)) ≤ 1 := by
    push_cast
    have e : d * 2 ^ t = z' := hz'
    rw [hyq] at e hG'
    linarith
  have hpos' : 0 < 2 * (2 * n + 1) * y - 2 * z' := by exact_mod_cast hpos
  have hle' : 2 * (2 * n + 1) * y - 2 * z' ≤ 1 := by exact_mod_cast hle
  have : 2 * (2 * n + 1) * y - 2 * z' = 2 * ((2 * n + 1) * y - z') := by ring
  omega


/-- In the binade `[1/2, 1)` the sum `d + 1/2` is rounded up to 1 only for `d = belowHalf`. -/
theorem roundEven_lt_of_float_low (d : ℚ) (hF : IsF32 d) (hne : d ≠ belowHalf)
    (hhi : (d + 1 / 2) * 2 ^ 24 < 2 ^ 24) :
    (d + 1 / 2) * 2 ^ 24 + 1 / 2 < 2 ^ 24 := by
  by_contra hG
  have hG' := not_lt.mp hG
  obtain ⟨z, hz⟩ := isF32_mul_pow d hF 25 (by norm_num at hG' ⊢; linarith)
  have h1 : (z : ℚ) < 2 ^ 24 := by rw [← hz]; norm_num at hhi ⊢; linarith
  have h2 : (2 : ℚ) ^ 24 - 1 ≤ z := by rw [← hz]; norm_num at hG' ⊢; linarith
  have h1' : z < 2 ^ 24 := by exact_mod_cast h1
  have h2' : (2 : ℤ) ^ 24 - 1 ≤ z := by exact_mod_cast h2
  have hzv : z = 16777215 := by norm_num at h1' h2'; omega
  apply hne
  rw [hzv] at hz
  unfold belowHalf
  norm_num at hz ⊢
  linarith

theorem floor_roundF32_add_half (d : ℚ) (hF : IsF32 d) (h0 : 0 ≤ d) (h1 : d + 1 / 2 < 65536)
    (hne : d ≠ belowHalf) : ⌊roundF32 (d + 1 / 2)⌋ = ⌊d + 1 / 2⌋ := by
  obtain ⟨t, ht8, ht24, hlo, hhi, hr⟩ := binade_of_range (d + 1 / 2) (by linarith) h1
  have hA : (0 : ℚ) < 2 ^ t := pow_pos (by norm_num) t
  have hn1 : ((⌊d + 1 / 2⌋ : ℤ) : ℚ) ≤ d + 1 / 2 := Int.floor_le _
  have hn2 : d + 1 / 2 < (⌊d + 1 / 2⌋ : ℤ) + 1 := Int.lt_floor_add_one _
  rw [hr, Int.floor_eq_iff]
  constructor
  · -- the floor is a multiple of the unit in the last place, so rounding keeps it below
    rw [le_div_iff₀ hA]
    have hle : ((⌊d + 1 / 2⌋ * 2 ^ t : ℤ) : ℚ) ≤ (d + 1 / 2) * 2 ^ t := by
      push_cast
      exact mul_le_mul_of_nonneg_right hn1 hA.le
    have h2 : ⌊d + 1 / 2⌋ * 2 ^ t ≤ ⌊(d + 1 / 2) * 2 ^ t⌋ := Int.le_floor.mpr hle
    have h3 := floor_le_roundEven ((d + 1 / 2) * 2 ^ t)
    have h4 : ((⌊d + 1 / 2⌋ * 2 ^ t : ℤ) : ℚ) ≤ roundEven ((d + 1 / 2) * 2 ^ t) := by
      exact_mod_cast le_trans h2 h3
    push_cast at h4
    exact h4
  · rw [div_lt_iff₀ hA]
    have hR := roundEven_le ((d + 1 / 2) * 2 ^ t)
    rcases Nat.lt_or_ge t 24 with hlt | hge
    · -- binades from 1 upwards
      have hB : (2 : ℚ) ^ 23 ≤ (⌊d + 1 / 2⌋ : ℤ) * 2 ^ t := by
        -- 2^(23 - t) is an integer below d + 1/2, hence below its floor
        obtain ⟨r, hrt⟩ : ∃ r : ℕ, 23 = r + t := ⟨23 - t, by omega⟩
        have hsplit : (2 : ℚ) ^ 23 = 2 ^ r * 2 ^ t := by rw [← pow_add, ← hrt]
        have hs : (((2 : ℤ) ^ r : ℤ) : ℚ) ≤ d + 1 / 2 := by
          push_cast
          rw [hsplit] at hlo
          exact le_of_mul_le_mul_right hlo hA
        have hfl : (2 : ℤ) ^ r ≤ ⌊d + 1 / 2⌋ := Int.le_floor.mpr hs
        have hflq : ((2 : ℚ) ^ r) ≤ (⌊d + 1 / 2⌋ : ℤ) := by exact_mod_cast hfl
        rw [hsplit]
        exact mul_le_mul_of_nonneg_right hflq hA.le
      have := roundEven_lt_of_float d hF t ht8 (by omega) ⌊d + 1 / 2⌋ hn2 hB
      linarith
    · have ht : t = 24 := by omega
      subst ht
      have hfl : ⌊d + 1 / 2⌋ = 0 := by
        rw [Int.floor_eq_iff]
        constructor
        · push_cast; linarith
        · norm_num at hhi ⊢; linarith
      have := roundEven_lt_of_float_low d hF hne hhi
      rw [hfl]
      push_cast
      linarith

theorem roundF32_belowHalf : roundF32 (belowHalf + 1 / 2) = 1 := by
  obtain ⟨t, ht8, ht24, hlo, hhi, hr⟩ :=
    binade_of_range (belowHalf + 1 / 2) (by unfold belowHalf; norm_num)
      (by unfold belowHalf; norm_num)
  have ht : t = 24 := by
    by_contra hne
    have hle : t ≤ 23 := by omega
    have hp : (2 : ℚ) ^ t ≤ 2 ^ 23 := pow_le_pow_right₀ (by norm_num) hle
    have hs : belowHalf + 1 / 2 < 1 := by unfold belowHalf; norm_num
    have hpos : (0 : ℚ) < 2 ^ t := pow_pos (by norm_num) t
    nlinarith
  subst ht
  rw [hr]
  have hv : (belowHalf + 1 / 2) * 2 ^ 24 = 33554431 / 2 := by unfold belowHalf; norm_num
  have hf : ⌊(33554431 / 2 : ℚ)⌋ = 16777215 := by
    rw [Int.floor_eq_iff]; norm_num
  have hre : roundEven (33554431 / 2) = 16777216 := by
    unfold roundEven
    rw [hf]
    norm_num
  rw [hv, hre]
  norm_num

theorem quantize_belowHalf : quantize belowHalf = some 1 := by
  unfold quantize
  have h : (0.5 : ℚ) = 1 / 2 := by norm_num
  simp only [h, roundF32_belowHalf]
  rfl

theorem quantize_of_float (d : ℚ) (hF : IsF32 d) (h0 : 0 ≤ d) (h1 : d + 1 / 2 < 65536)
    (hne : d ≠ belowHalf) : quantize d = some ⌊d + 1 / 2⌋.toNat := by
  have hfl := floor_roundF32_add_half d hF h0 h1 hne
  have hn0 : 0 ≤ ⌊d + 1 / 2⌋ := Int.floor_nonneg.mpr (by linarith)
  have hn1 : ⌊d + 1 / 2⌋ < 65536 := by rw [Int.floor_lt]; exact_mod_cast h1
  have hr0 : 0 ≤ roundF32 (d + 1 / 2) := by
    rw [← Int.floor_nonneg, hfl]; exact hn0
  have h : (0.5 : ℚ) = 1 / 2 := by norm_num
  simp only [quantize, h, truncate_of_nonneg _ hr0, hfl]
  rw [if_pos ⟨hn0, hn1⟩]

theorem isF32_belowHalf : IsF32 belowHalf :=
  ⟨16777215, -25, by norm_num, by norm_num, by norm_num, by unfold belowHalf; norm_num⟩

/-- A binary32 value above `belowHalf` is at least one half. -/
theorem half_le_of_belowHalf_lt (d : ℚ) (hF : IsF32 d) (h : belowHalf < d) : 1 / 2 ≤ d := by
  unfold belowHalf at h
  obtain ⟨z, hz⟩ := isF32_mul_pow d hF 25 (by norm_num; linarith)
  have hz1 : (16777215 : ℚ) < z := by rw [← hz]; norm_num; linarith
  have hz2 : (16777215 : ℤ) < z := by exact_mod_cast hz1
  have hz3 : (16777216 : ℚ) ≤ z := by exact_mod_cast (show (16777216 : ℤ) ≤ z by omega)
  rw [← hz] at hz3
  norm_num at hz3
  linarith

/-- Rounding to binary32 of a positive value whose scaling by `2^t` lies in
`[2^23, 2^24)`: the scaled value is rounded to an integer. -/
theorem roundF32_of_scaled (x : ℚ) (t : ℕ) (ht : t ≤ 149)
    (hlo : (2 : ℚ) ^ 23 ≤ x * 2 ^ t) (hhi : x * 2 ^ t < 2 ^ 24) :
    roundF32 x = roundEven (x * 2 ^ t) / 2 ^ t := by
  have htpos : (0 : ℚ) < 2 ^ t := pow_pos (by norm_num) t
  have hpos : 0 < x := by
    by_contra h
    have : x * 2 ^ t ≤ 0 := mul_nonpos_of_nonpos_of_nonneg (not_lt.mp h) htpos.le
    have h23 : (0 : ℚ) < 2 ^ 23 := by norm_num
    linarith
  have e1 : (2 : ℚ) ^ (23 - (t : ℤ)) * 2 ^ t = 2 ^ 23 := by
    rw [← zpow_natCast (2 : ℚ) t, ← zpow_add₀ (by norm_num : (2 : ℚ) ≠ 0)]
    norm_num
  have e2 : (2 : ℚ) ^ (24 - (t : ℤ)) * 2 ^ t = 2 ^ 24 := by
    rw [← zpow_natCast (2 : ℚ) t, ← zpow_add₀ (by norm_num : (2 : ℚ) ≠ 0)]
    norm_num
  have hk : Int.log 2 x = 23 - (t : ℤ) := by
    apply le_antisymm
    · have : Int.log 2 x < 24 - (t : ℤ) := by
        rw [← Int.lt_zpow_iff_log_lt (b := 2) (by norm_num) hpos]
        have : x * 2 ^ t < (2 : ℚ) ^ (24 - (t : ℤ)) * 2 ^ t := by rw [e2]; exact hhi
        have h := lt_of_mul_lt_mul_right this htpos.le
        simpa using h
      omega
    · rw [← Int.zpow_le_iff_le_log (b := 2) (by norm_num) hpos]
      have : (2 : ℚ) ^ (23 - (t : ℤ)) * 2 ^ t ≤ x * 2 ^ t := by rw [e1]; exact hlo
      have h := le_of_mul_le_mul_right this htpos
      simpa using h
  have hu : ulpExp32 x = -(t : ℤ) := by
    unfold ulpExp32
    rw [abs_of_pos hpos, hk]
    have : (-149 : ℤ) ≤ 23 - (t : ℤ) - 23 := by omega
    rw [max_eq_left this]
    ring
  unfold roundF32
  rw [hu, zpow_neg, zpow_natCast, div_inv_eq_mul, div_eq_mul_inv]

theorem roundEven_eq (q : ℚ) (n : ℤ) (h1 : (n : ℚ) - 1 / 2 < q) (h2 : q < n + 1 / 2) :
    roundEven q = n := by
  unfold roundEven
  have hf := Int.floor_le q
  have hf2 := Int.lt_floor_add_one q
  split_ifs with a b c
  · have : (((⌊q⌋ - n : ℤ)) : ℚ) < 1 := by push_cast; linarith
    have : ((-1 : ℤ) : ℚ) < ((⌊q⌋ - n : ℤ) : ℚ) := by push_cast; linarith
    have h3 : ⌊q⌋ - n < 1 := by exact_mod_cast ‹(((⌊q⌋ - n : ℤ)) : ℚ) < 1›
    have h4 : -1 < ⌊q⌋ - n := by exact_mod_cast this
    omega
  · have h5 : (((⌊q⌋ + 1 - n : ℤ)) : ℚ) < 1 := by push_cast; linarith
    have h6 : ((-1 : ℤ) : ℚ) < ((⌊q⌋ + 1 - n : ℤ) : ℚ) := by push_cast; linarith
    have h3 : ⌊q⌋ + 1 - n < 1 := by exact_mod_cast h5
    have h4 : -1 < ⌊q⌋ + 1 - n := by exact_mod_cast h6
    omega
  all_goals
    exfalso
    have he : q - ⌊q⌋ = 1 / 2 := le_antisymm (not_lt.mp b) (not_lt.mp a)
    have h5 : (((2 * ⌊q⌋ + 1 - 2 * n : ℤ)) : ℚ) < 1 := by push_cast; linarith
    have h6 : ((-1 : ℤ) : ℚ) < ((2 * ⌊q⌋ + 1 - 2 * n : ℤ) : ℚ) := by push_cast; linarith
    have h3 : 2 * ⌊q⌋ + 1 - 2 * n < 1 := by exact_mod_cast h5
    have h4 : -1 < 2 * ⌊q⌋ + 1 - 2 * n := by exact_mod_cast h6
    omega

/-- The literal `0.1f` is the binary32 value `13421773 / 2^27`, and the binary32
product `65535.0f * 0.1f` is 6553.5, the value of `depthScale`. -/
theorem depthScale_binary32 :
    roundF32 0.1 = 13421773 / 134217728 ∧ roundF32 (65535 * roundF32 0.1) = depthScale := by
  have h1 : roundF32 0.1 = 13421773 / 134217728 := by
    rw [roundF32_of_scaled 0.1 27 (by norm_num) (by norm_num) (by norm_num),
      roundEven_eq _ 13421773 (by norm_num) (by norm_num)]
    norm_num
  refine ⟨h1, ?_⟩
  rw [h1, roundF32_of_scaled _ 11 (by norm_num) (by norm_num) (by norm_num),
    roundEven_eq _ 13421568 (by norm_num) (by norm_num)]
  unfold depthScale
  norm_num

/-- Rounding to binary64 of a positive value whose scaling by `2^t` lies in
`[2^52, 2^53)`: the scaled value is rounded to an integer. -/
theorem roundF64_of_scaled (x : ℚ) (t : ℕ) (ht : t ≤ 1074)
    (hlo : (2 : ℚ) ^ 52 ≤ x * 2 ^ t) (hhi : x * 2 ^ t < 2 ^ 53) :
    roundF64 x = roundEven (x * 2 ^ t) / 2 ^ t := by
  have htpos : (0 : ℚ) < 2 ^ t := pow_pos (by norm_num) t
  have hpos : 0 < x := by
    by_contra h
    have : x * 2 ^ t ≤ 0 := mul_nonpos_of_nonpos_of_nonneg (not_lt.mp h) htpos.le
    have h52 : (0 : ℚ) < 2 ^ 52 := by norm_num
    linarith
  have e1 : (2 : ℚ) ^ (52 - (t : ℤ)) * 2 ^ t = 2 ^ 52 := by
    rw [← zpow_natCast (2 : ℚ) t, ← zpow_add₀ (by norm_num : (2 : ℚ) ≠ 0)]
    norm_num
  have e2 : (2 : ℚ) ^ (53 - (t : ℤ)) * 2 ^ t = 2 ^ 53 := by
    rw [← zpow_natCast (2 : ℚ) t, ← zpow_add₀ (by norm_num : (2 : ℚ) ≠ 0)]
    norm_num
  have hk : Int.log 2 x = 52 - (t : ℤ) := by
    apply le_antisymm
    · have : Int.log 2 x < 53 - (t : ℤ) := by
        rw [← Int.lt_zpow_iff_log_lt (b := 2) (by norm_num) hpos]
        have : x * 2 ^ t < (2 : ℚ) ^ (53 - (t : ℤ)) * 2 ^ t := by rw [e2]; exact hhi
        have h := lt_of_mul_lt_mul_right this htpos.le
        simpa using h
      omega
    · rw [← Int.zpow_le_iff_le_log (b := 2) (by norm_num) hpos]
      have : (2 : ℚ) ^ (52 - (t : ℤ)) * 2 ^ t ≤ x * 2 ^ t := by rw [e1]; exact hlo
      have h := le_of_mul_le_mul_right this htpos
      simpa using h
  have hu : ulpExp64 x = -(t : ℤ) := by
    unfold ulpExp64
    rw [abs_of_pos hpos, hk]
    have : (-1074 : ℤ) ≤ 52 - (t : ℤ) - 52 := by omega
    rw [max_eq_left this]
    ring
  unfold roundF64
  rw [hu, zpow_neg, zpow_natCast, div_inv_eq_mul, div_eq_mul_inv]

/-- The four literals of the two increments hold the values given for them:
the binary32 values of 0.9961 and 0.0871, the binary64 values of 0.025 and
0.06. -/
theorem literal_values :
    roundF32 0.9961 = lit_0_9961f ∧ roundF32 0.0871 = lit_0_0871f ∧
      roundF64 0.025 = lit_0_025 ∧ roundF64 0.06 = lit_0_06 := by
  refine ⟨?_, ?_, ?_, ?_⟩
  · rw [roundF32_of_scaled 0.9961 24 (by norm_num) (by norm_num) (by norm_num),
      roundEven_eq _ 16711785 (by norm_num) (by norm_num)]
    unfold lit_0_9961f; norm_num
  · rw [roundF32_of_scaled 0.0871 27 (by norm_num) (by norm_num) (by norm_num),
      roundEven_eq _ 11690364 (by norm_num) (by norm_num)]
    unfold lit_0_0871f; norm_num
  · rw [roundF64_of_scaled 0.025 58 (by norm_num) (by norm_num) (by norm_num),
      roundEven_eq _ 7205759403792794 (by norm_num) (by norm_num)]
    unfold lit_0_025; norm_num
  · rw [roundF64_of_scaled 0.06 57 (by norm_num) (by norm_num) (by norm_num),
      roundEven_eq _ 8646911284551352 (by norm_num) (by norm_num)]
    unfold lit_0_06; norm_num

/-! ### Inverses of the two increments -/

theorem inverse_eq_inv (A : Mat4) : inverse A = A⁻¹ := by
  unfold inverse
  rw [Matrix.inv_def, Ring.inverse_eq_inv']

theorem inverse_eq_of_mul_eq_one (A B : Mat4) (h : A * B = 1) : inverse A = B := by
  rw [inverse_eq_inv]
  exact Matrix.inv_eq_right_inv h

theorem T_mul_T_inv : T * T_inv = 1 := by
  ext i j
  fin_cases i <;> fin_cases j <;>
    simp [T, T_inv, Matrix.mul_apply, Fin.sum_univ_four, Matrix.one_apply,
      Matrix.vecHead, Matrix.vecTail]

theorem stepScale_eq : stepScale = 1125899906842624 / 1125676569698181 := by
  unfold stepScale lit_0_9961f lit_0_0871f; norm_num

theorem T_new_old_mul_S_inv : T_new_old * S_inv = 1 := by
  ext i j
  fin_cases i <;> fin_cases j <;>
    simp [T_new_old, S_inv, stepScale_eq, lit_0_9961f, lit_0_0871f, lit_0_025,
      Matrix.mul_apply, Fin.sum_univ_four, Matrix.one_apply,
      Matrix.vecHead, Matrix.vecTail] <;> norm_num

theorem inverse_T : inverse T = T_inv := inverse_eq_of_mul_eq_one _ _ T_mul_T_inv

theorem inverse_T_new_old : inverse T_new_old = S_inv :=
  inverse_eq_of_mul_eq_one _ _ T_new_old_mul_S_inv

theorem T_inv_mul_T : T_inv * T = 1 := by
  ext i j
  fin_cases i <;> fin_cases j <;>
    simp [T, T_inv, Matrix.mul_apply, Fin.sum_univ_four, Matrix.one_apply,
      Matrix.vecHead, Matrix.vecTail]

theorem restoredPose_eq (P : Mat4) : restoredPose P = P := by
  unfold restoredPose shiftedPose
  rw [Matrix.mul_assoc, inverse_T, T_inv_mul_T, Matrix.mul_one]

/-! ### The frame loop issues the calls of the state machine -/

theorem emit_emit (s : State) (a b : List Event) : (s.emit a).emit b = s.emit (a ++ b) := by
  simp [State.emit, List.append_assoc]

theorem emit_nil (s : State) : s.emit [] = s := by
  simp [State.emit]

theorem colourPass_eq (s : State) : colourPass s = s.emit (specColourPass s.s_cam) := rfl

theorem depthPass_eq (i : ℕ) (s : State) :
    depthPass i s = s.emit (specDepthPass i s.s_cam) := rfl

theorem enum_take_succ (l : List MirrorSurface) (n : ℕ) (m : MirrorSurface)
    (h : l[n]? = some m) : (l.take (n + 1)).enum = (l.take n).enum ++ [(n, m)] := by
  have hn : n < l.length := by
    rcases Nat.lt_or_ge n l.length with h1 | h1
    · exact h1
    · rw [List.getElem?_eq_none h1] at h; cases h
  rw [List.take_succ, h]
  simp [List.enum_append, List.enumFrom_singleton, List.length_take, Nat.min_eq_left (Nat.le_of_lt hn)]

theorem mirrorPrefix_eq (mirrors : List MirrorSurface) (s : State) :
    ∀ n, n ≤ mirrors.length →
      forLoop n (mirrorBody mirrors) s = s.emit (specMirrors (mirrors.take n) s.s_cam) := by
  intro n
  induction n with
  | zero => intro _; simp [forLoop, specMirrors, emit_nil]
  | succ n ih =>
    intro hn
    have hlt : n < mirrors.length := hn
    have hget : mirrors[n]? = some mirrors[n] := List.getElem?_eq_getElem hlt
    rw [forLoop, ih (Nat.le_of_lt hlt)]
    unfold mirrorBody
    rw [hget]
    simp only [specMirrors, enum_take_succ mirrors n _ hget, List.flatMap_append,
      List.flatMap_cons, List.flatMap_nil, List.append_nil]
    rw [emit_emit]
    rfl

theorem mirrorLoop_eq (mirrors : List MirrorSurface) (s : State) :
    mirrorLoop mirrors s = s.emit (specMirrors mirrors s.s_cam) := by
  unfold mirrorLoop
  rw [mirrorPrefix_eq mirrors s mirrors.length (Nat.le_refl _), List.take_length]

theorem frameBody_eq (mirrors : List MirrorSurface) (i : ℕ) (P : Mat4) (tr : List Event) :
    frameBody mirrors true i { T_camera_world := P, s_cam := P, trace := tr } =
      { T_camera_world := nextPose P, s_cam := nextPose P,
        trace := tr ++ specFrame mirrors i P } := by
  simp [frameBody, forLoop, eyeBody, colourPass_eq, mirrorLoop_eq, depthPass_eq, State.emit,
    specFrame, applyRight, undoRight, advanceTrajectory, nextPose, restoredPose, shiftedPose]

theorem renderFrames_eq (mirrors : List MirrorSurface) (P0 : Mat4) (n : ℕ) :
    renderFrames n true mirrors (initState P0) =
      { T_camera_world := specPose P0 n, s_cam := specPose P0 n,
        trace := specRun mirrors P0 n } := by
  induction n with
  | zero => rfl
  | succ n ih =>
    unfold renderFrames at ih ⊢
    rw [forLoop, ih, frameBody_eq]
    simp [specPose, specRun, List.range_succ, List.flatMap_append]

/-! ### File names -/

theorem digitChar_toNat : ∀ d : ℕ, d < 10 → (Nat.digitChar d).toNat - 48 = d := by
  decide

theorem ofDigits_append_zeros (l : List ℕ) (k : ℕ) :
    Nat.ofDigits 10 (l ++ List.replicate k 0) = Nat.ofDigits 10 l := by
  induction l with
  | nil =>
    induction k with
    | zero => rfl
    | succ k ih => simp [List.replicate_succ, Nat.ofDigits_cons, ih] at *
  | cons a l ih => simp [Nat.ofDigits_cons, ih]

theorem map_digitChar_digits (n : ℕ) :
    ((Nat.digits 10 n).map Nat.digitChar).map (fun c => c.toNat - 48) = Nat.digits 10 n := by
  rw [List.map_map]
  conv_rhs => rw [← List.map_id (Nat.digits 10 n)]
  apply List.map_congr_left
  intro d hd
  exact digitChar_toNat d (Nat.digits_lt_base (by norm_num) hd)

theorem decode_fmt06zu (n : ℕ) : decode (fmt06zu n).data = n := by
  unfold decode fmt06zu decimal
  by_cases h : n = 0
  · subst h
    simp [List.reverse_append, Nat.ofDigits_cons, ofDigits_append_zeros [0]]
  · simp only [h, if_false, List.reverse_append, List.reverse_reverse, List.map_append,
      List.map_reverse, List.reverse_replicate, List.map_replicate]
    rw [map_digitChar_digits]
    have : (Char.toNat '0' - 48) = 0 := by decide
    rw [this, ofDigits_append_zeros, Nat.ofDigits_digits]

theorem fmt06zu_injective : Function.Injective fmt06zu := by
  intro a b h
  have := congrArg (fun s => decode s.data) h
  simpa [decode_fmt06zu] using this

theorem leftName_data (i : ℕ) :
    (leftName i).data = "frame".data ++ (fmt06zu i).data ++ "_left.jpg".data := by
  simp [leftName, String.data_append]

theorem rightName_data (i : ℕ) :
    (rightName i).data = "frame".data ++ (fmt06zu i).data ++ "_right.jpg".data := by
  simp [rightName, String.data_append]

theorem depthName_data (i : ℕ) :
    (depthName i).data = "depth".data ++ (fmt06zu i).data ++ ".png".data := by
  simp [depthName, String.data_append]

theorem leftName_injective : Function.Injective leftName := by
  intro a b h
  have h1 := congrArg String.data h
  rw [leftName_data, leftName_data] at h1
  have h2 := List.append_cancel_left (List.append_cancel_right h1)
  exact fmt06zu_injective (String.ext h2)

theorem rightName_injective : Function.Injective rightName := by
  intro a b h
  have h1 := congrArg String.data h
  rw [rightName_data, rightName_data] at h1
  have h2 := List.append_cancel_left (List.append_cancel_right h1)
  exact fmt06zu_injective (String.ext h2)

theorem depthName_injective : Function.Injective depthName := by
  intro a b h
  have h1 := congrArg String.data h
  rw [depthName_data, depthName_data] at h1
  have h2 := List.append_cancel_left (List.append_cancel_right h1)
  exact fmt06zu_injective (String.ext h2)

theorem leftName_ne_rightName (a b : ℕ) : leftName a ≠ rightName b := by
  intro h
  have h1 := congrArg (fun s => s.data.reverse) h
  simp only [leftName_data, rightName_data, List.reverse_append] at h1
  have h2 := congrArg (fun l => l.take 6) h1
  simp at h2

theorem leftName_ne_depthName (a b : ℕ) : leftName a ≠ depthName b := by
  intro h
  have h1 := congrArg (fun s => s.data.take 1) h
  simp [leftName_data, depthName_data] at h1

theorem rightName_ne_depthName (a b : ℕ) : rightName a ≠ depthName b := by
  intro h
  have h1 := congrArg (fun s => s.data.take 1) h
  simp [rightName_data, depthName_data] at h1

theorem digits_padded (k : ℕ) : ∀ n : ℕ, n < 10 ^ k →
    Nat.digits 10 n ++ List.replicate (k - (Nat.digits 10 n).length) 0 =
      (List.range k).map (fun t => n / 10 ^ t % 10) := by
  induction k with
  | zero =>
    intro n hn
    have : n = 0 := by simpa using hn
    subst this
    simp
  | succ k ih =>
    intro n hn
    rcases Nat.eq_zero_or_pos n with h0 | hpos
    · subst h0
      simp only [Nat.digits_zero, List.length_nil, Nat.sub_zero, List.nil_append,
        Nat.zero_div, Nat.zero_mod]
      symm
      rw [List.eq_replicate_iff]
      simp
    · have hdiv : n / 10 < 10 ^ k := by
        rw [Nat.div_lt_iff_lt_mul (by norm_num)]
        rw [pow_succ] at hn
        exact hn
      have hd : Nat.digits 10 n = n % 10 :: Nat.digits 10 (n / 10) :=
        Nat.digits_def' (by norm_num) hpos
      rw [hd, List.range_succ_eq_map, List.map_cons, List.map_map]
      simp only [List.length_cons, Nat.succ_sub_succ, List.cons_append, pow_zero, Nat.div_one]
      rw [ih (n / 10) hdiv]
      congr 1
      apply List.map_congr_left
      intro t _
      simp [Function.comp, pow_succ, Nat.div_div_eq_div_mul, Nat.mul_comm]

theorem fmt06zu_sixDigits (i : ℕ) (h : i < 1000000) : fmt06zu i = sixDigits i := by
  unfold fmt06zu decimal sixDigits
  by_cases h0 : i = 0
  · subst h0; rfl
  · simp only [h0, if_false]
    have hp := digits_padded 6 i (by norm_num; exact h)
    have hz : ('0' : Char) = Nat.digitChar 0 := rfl
    have e : List.replicate (6 - (List.map Nat.digitChar (Nat.digits 10 i).reverse).length) '0'
          ++ List.map Nat.digitChar (Nat.digits 10 i).reverse
        = ((Nat.digits 10 i ++ List.replicate (6 - (Nat.digits 10 i).length) 0).reverse).map
            Nat.digitChar := by
      simp [List.reverse_append]
      right; rfl
    rw [e, hp]
    simp [List.range_succ]

/-! ### Files written -/

theorem savedFiles_append (a b : List Event) :
    savedFiles (a ++ b) = savedFiles a ++ savedFiles b := by
  induction a with
  | nil => rfl
  | cons e es ih => cases e <;> simp [savedFiles, ih]

theorem savedAs_append (fmt : String) (a b : List Event) :
    savedAs fmt (a ++ b) = savedAs fmt a ++ savedAs fmt b := by
  induction a with
  | nil => rfl
  | cons e es ih =>
    cases e <;> simp [savedAs, ih]
    split <;> simp

theorem savedFiles_specMirrors (mirrors : List MirrorSurface) (P : Mat4) :
    savedFiles (specMirrors mirrors P) = [] := by
  unfold specMirrors
  induction mirrors.enum with
  | nil => rfl
  | cons jm l ih =>
    rw [List.flatMap_cons, savedFiles_append, ih]
    rfl

theorem savedAs_specMirrors (fmt : String) (mirrors : List MirrorSurface) (P : Mat4) :
    savedAs fmt (specMirrors mirrors P) = [] := by
  unfold specMirrors
  induction mirrors.enum with
  | nil => rfl
  | cons jm l ih =>
    rw [List.flatMap_cons, savedAs_append, ih]
    rfl

theorem savedFiles_specFrame (mirrors : List MirrorSurface) (i : ℕ) (P : Mat4) :
    savedFiles (specFrame mirrors i P) = frameFiles i := by
  simp [specFrame, savedFiles_append, savedFiles_specMirrors, specColourPass, specDepthPass,
    savedFiles, frameFiles]

theorem savedAs_rgb_specFrame (mirrors : List MirrorSurface) (i : ℕ) (P : Mat4) :
    savedAs "RGB24" (specFrame mirrors i P) = [leftName i, rightName i] := by
  simp [specFrame, savedAs_append, savedAs_specMirrors, specColourPass, specDepthPass,
    savedAs]

theorem savedAs_gray_specFrame (mirrors : List MirrorSurface) (i : ℕ) (P : Mat4) :
    savedAs "GRAY16LE" (specFrame mirrors i P) = [depthName i] := by
  simp [specFrame, savedAs_append, savedAs_specMirrors, specColourPass, specDepthPass,
    savedAs]

theorem savedFiles_specRun (mirrors : List MirrorSurface) (P0 : Mat4) (n : ℕ) :
    savedFiles (specRun mirrors P0 n) = (List.range n).flatMap frameFiles := by
  induction n with
  | zero => rfl
  | succ n ih =>
    unfold specRun at ih ⊢
    simp [List.range_succ, List.flatMap_append, savedFiles_append, ih, savedFiles_specFrame]

theorem savedAs_rgb_specRun (mirrors : List MirrorSurface) (P0 : Mat4) (n : ℕ) :
    savedAs "RGB24" (specRun mirrors P0 n) =
      (List.range n).flatMap (fun i => [leftName i, rightName i]) := by
  induction n with
  | zero => rfl
  | succ n ih =>
    unfold specRun at ih ⊢
    simp only [List.range_succ, List.flatMap_append, savedAs_append, ih, List.flatMap_cons,
      List.flatMap_nil, List.append_nil, savedAs_rgb_specFrame]

theorem savedAs_gray_specRun (mirrors : List MirrorSurface) (P0 : Mat4) (n : ℕ) :
    savedAs "GRAY16LE" (specRun mirrors P0 n) = (List.range n).map depthName := by
  induction n with
  | zero => rfl
  | succ n ih =>
    unfold specRun at ih ⊢
    simp only [List.range_succ, List.flatMap_append, savedAs_append, ih, List.flatMap_cons,
      List.flatMap_nil, List.append_nil, savedAs_gray_specFrame, List.map_append, List.map_cons,
      List.map_nil]

theorem length_flatMap_frameFiles (n : ℕ) :
    ((List.range n).flatMap frameFiles).length = 3 * n := by
  induction n with
  | zero => rfl
  | succ n ih => simp [List.range_succ, List.flatMap_append, ih, frameFiles]; omega

theorem length_flatMap_colour (n : ℕ) :
    ((List.range n).flatMap (fun i => [leftName i, rightName i])).length = 2 * n := by
  induction n with
  | zero => rfl
  | succ n ih => simp [List.range_succ, List.flatMap_append, ih]; omega

theorem nodup_flatMap_frameFiles (n : ℕ) : ((List.range n).flatMap frameFiles).Nodup := by
  rw [List.nodup_flatMap]
  constructor
  · intro i _
    simp [frameFiles, leftName_ne_rightName, leftName_ne_depthName, rightName_ne_depthName]
  · refine (List.pairwise_lt_range n).imp ?_
    intro a b hab
    have hne : a ≠ b := Nat.ne_of_lt hab
    simp only [Function.onFun, frameFiles, List.disjoint_cons_left, List.mem_cons, List.mem_singleton,
      List.not_mem_nil, or_false, not_or, List.disjoint_nil_left, and_true]
    refine ⟨⟨fun h => hne (leftName_injective h), leftName_ne_rightName a b,
        leftName_ne_depthName a b⟩,
      ⟨fun h => leftName_ne_rightName b a h.symm, fun h => hne (rightName_injective h),
        rightName_ne_depthName a b⟩,
      ⟨fun h => leftName_ne_depthName b a h.symm, fun h => rightName_ne_depthName b a h.symm,
        fun h => hne (depthName_injective h)⟩⟩

/-! ### The binding discipline -/

theorem bindRun_append (s : BindState) (a b : List Event) :
    bindRun s (a ++ b) = (bindRun s a).bind (fun s1 => bindRun s1 b) := by
  induction a generalizing s with
  | nil => rfl
  | cons e es ih =>
    simp only [List.cons_append, bindRun]
    cases bindStep s e with
    | none => rfl
    | some s1 => simp [ih]

theorem bindRun_idle_append (a b : List Event) (h : bindRun .idle a = some .idle) :
    bindRun .idle (a ++ b) = bindRun .idle b := by
  rw [bindRun_append, h]; rfl

theorem bindRun_specColourPass (P : Mat4) : bindRun .idle (specColourPass P) = some .idle := rfl

theorem bindRun_specDepthPass (i : ℕ) (P : Mat4) :
    bindRun .idle (specDepthPass i P) = some .idle := rfl

theorem bindRun_specMirrorBlock (P : Mat4) (j : ℕ) (m : MirrorSurface) :
    bindRun .idle (specMirrorBlock P j m) = some .idle := rfl

theorem bindRun_specMirrors (mirrors : List MirrorSurface) (P : Mat4) :
    bindRun .idle (specMirrors mirrors P) = some .idle := by
  unfold specMirrors
  induction mirrors.enum with
  | nil => rfl
  | cons jm l ih =>
    rw [List.flatMap_cons, bindRun_idle_append _ _ (bindRun_specMirrorBlock _ _ _), ih]

theorem bindRun_specFrame (mirrors : List MirrorSurface) (i : ℕ) (P : Mat4) :
    bindRun .idle (specFrame mirrors i P) = some .idle := by
  simp only [specFrame, List.append_assoc]
  rw [bindRun_idle_append _ _ (bindRun_specColourPass _),
    bindRun_idle_append _ _ (bindRun_specMirrors _ _),
    bindRun_idle_append _ _ (show bindRun .idle [.download .colour, .saveImage "RGB24" (leftName i)] = some .idle from rfl),
    bindRun_idle_append _ _ (show bindRun .idle [.setPose (shiftedPose P)] = some .idle from rfl),
    bindRun_idle_append _ _ (bindRun_specColourPass _),
    bindRun_idle_append _ _ (bindRun_specMirrors _ _),
    bindRun_idle_append _ _ (show bindRun .idle [.download .colour, .saveImage "RGB24" (rightName i)] = some .idle from rfl),
    bindRun_idle_append _ _ (show bindRun .idle [.setPose (restoredPose P)] = some .idle from rfl),
    bindRun_idle_append _ _ (bindRun_specDepthPass _ _)]
  rfl

theorem bindRun_specRun (mirrors : List MirrorSurface) (P0 : Mat4) (n : ℕ) :
    bindRun .idle (specRun mirrors P0 n) = some .idle := by
  induction n with
  | zero => rfl
  | succ n ih =>
    unfold specRun at ih ⊢
    rw [List.range_succ, List.flatMap_append, bindRun_idle_append _ _ ih]
    simp only [List.flatMap_cons, List.flatMap_nil, List.append_nil]
    exact bindRun_specFrame _ _ _

/-! ### Depth spans -/

theorem specFrame_split (mirrors : List MirrorSurface) (i : ℕ) (P : Mat4) :
    specFrame mirrors i P =
      colourPhase mirrors i P ++ (specDepthPass i (restoredPose P) ++ [.setPose (nextPose P)]) := by
  simp [specFrame, colourPhase, List.append_assoc]

theorem noDepthSpan_append {a b : List Event} (ha : NoDepthSpan a) (hb : NoDepthSpan b) :
    NoDepthSpan (a ++ b) := by
  intro rest
  rw [List.append_assoc, ha, hb]

theorem noDepthSpan_specMirrors (mirrors : List MirrorSurface) (P : Mat4) :
    NoDepthSpan (specMirrors mirrors P) := by
  unfold specMirrors
  induction mirrors.enum with
  | nil => intro rest; rfl
  | cons jm l ih =>
    rw [List.flatMap_cons]
    exact noDepthSpan_append (fun _ => rfl) ih

theorem noDepthSpan_colourPhase (mirrors : List MirrorSurface) (i : ℕ) (P : Mat4) :
    NoDepthSpan (colourPhase mirrors i P) := by
  unfold colourPhase
  repeat' apply noDepthSpan_append
  all_goals first | exact noDepthSpan_specMirrors _ _ | exact fun _ => rfl

theorem depthSpansFrom_specFrame (mirrors : List MirrorSurface) (i : ℕ) (P : Mat4)
    (rest : List Event) :
    depthSpansFrom none (specFrame mirrors i P ++ rest) =
      specDepthPass i (restoredPose P) :: depthSpansFrom none rest := by
  rw [specFrame_split, List.append_assoc, noDepthSpan_colourPhase]
  rfl

theorem depthSpansFrom_flatMap (mirrors : List MirrorSurface) (f : ℕ → Mat4) (ks : List ℕ) :
    depthSpansFrom none (ks.flatMap (fun i => specFrame mirrors i (f i))) =
      ks.map (fun i => specDepthPass i (restoredPose (f i))) := by
  induction ks with
  | nil => rfl
  | cons k ks ih => rw [List.flatMap_cons, depthSpansFrom_specFrame, ih, List.map_cons]

theorem depthSpans_specRun (mirrors : List MirrorSurface) (P0 : Mat4) (n : ℕ) :
    depthSpans (specRun mirrors P0 n) =
      (List.range n).map (fun i => specDepthPass i (restoredPose (specPose P0 i))) :=
  depthSpansFrom_flatMap mirrors (specPose P0) (List.range n)

theorem noMirror_specDepthPass (i : ℕ) (P : Mat4) :
    (specDepthPass i P).all (fun e => !e.isMirror) = true := rfl

/-! ### Reflection captures and the compositor protocol -/

theorem captureSafe_append {a b : List Event} (ha : CaptureSafe a) (hb : CaptureSafe b) :
    CaptureSafe (a ++ b) := by
  intro rest
  rw [List.append_assoc, ha, hb]

theorem captureSafe_specMirrors (mirrors : List MirrorSurface) (P : Mat4) :
    CaptureSafe (specMirrors mirrors P) := by
  unfold specMirrors
  induction mirrors.enum with
  | nil => intro rest; rfl
  | cons jm l ih =>
    rw [List.flatMap_cons]
    exact captureSafe_append (fun _ => rfl) ih

theorem captureSafe_specFrame (mirrors : List MirrorSurface) (i : ℕ) (P : Mat4) :
    CaptureSafe (specFrame mirrors i P) := by
  unfold specFrame
  repeat' apply captureSafe_append
  all_goals first | exact captureSafe_specMirrors _ _ | exact fun _ => rfl

theorem capturesUnbound_flatMap (mirrors : List MirrorSurface) (f : ℕ → Mat4) (ks : List ℕ) :
    capturesUnbound false (ks.flatMap (fun i => specFrame mirrors i (f i))) = true := by
  induction ks with
  | nil => rfl
  | cons k ks ih => rw [List.flatMap_cons, captureSafe_specFrame, ih]

theorem dropBrackets_specMirrors (mirrors : List MirrorSurface) (P : Mat4) :
    dropBrackets (specMirrors mirrors P) =
      mirrors.enum.flatMap (fun jm => protocolBlock P jm.1 jm.2) := by
  unfold specMirrors dropBrackets
  induction mirrors.enum with
  | nil => rfl
  | cons jm l ih =>
    rw [List.flatMap_cons, List.flatMap_cons, List.filter_append, ih]
    rfl

theorem specMirrors_nil (P : Mat4) : specMirrors [] P = [] := rfl

theorem specFrame_nil (i : ℕ) (P : Mat4) : specFrame [] i P = frameWithoutMirrors i P := by
  simp [specFrame, frameWithoutMirrors, specMirrors_nil]

/-! ### Rigid transforms -/

theorem rot3_mul (A B : Mat4) (hB : BottomRow B) : rot3 (A * B) = rot3 A * rot3 B := by
  obtain ⟨h0, h1, h2, _⟩ := hB
  ext i j
  fin_cases i <;> fin_cases j <;>
    simp [rot3, Matrix.mul_apply, Fin.sum_univ_four, Fin.sum_univ_three, h0, h1, h2,
      Matrix.vecHead, Matrix.vecTail]

theorem bottomRow_S_inv : BottomRow S_inv := by
  refine ⟨?_, ?_, ?_, ?_⟩ <;> simp [S_inv, Matrix.vecHead, Matrix.vecTail]

theorem det_rot3_S_inv : (rot3 S_inv).det = stepScale := by
  rw [Matrix.det_fin_three]
  simp [rot3, S_inv, Matrix.vecHead, Matrix.vecTail, stepScale_eq, lit_0_9961f, lit_0_0871f]
  norm_num

theorem det_rot3_T_new_old :
    (rot3 T_new_old).det = 1125676569698181 / 1125899906842624 := by
  rw [Matrix.det_fin_three]
  simp [rot3, T_new_old, Matrix.vecHead, Matrix.vecTail, lit_0_9961f, lit_0_0871f]
  norm_num

theorem isRigid_lookAtPose : IsRigid lookAtPose := by
  refine ⟨?_, ?_, ?_, ?_, ?_, ?_⟩
  · ext i j
    fin_cases i <;> fin_cases j <;>
      simp [rot3, lookAtPose, Matrix.mul_apply, Fin.sum_univ_three, Matrix.one_apply,
        Matrix.vecHead, Matrix.vecTail]
  · rw [Matrix.det_fin_three]
    simp [rot3, lookAtPose, Matrix.vecHead, Matrix.vecTail]
  all_goals simp [lookAtPose, Matrix.vecHead, Matrix.vecTail]

/-! ### Start-up -/

theorem main_of_startOk (env : Env) (argv : List String) (h : startOk env argv = true) :
    main env argv = (Exit.returned 0, specRun (mirrorsOf env argv) env.lookAt numFrames) := by
  rcases argv with _ | ⟨a0, _ | ⟨a1, _ | ⟨a2, _ | ⟨a3, _ | ⟨a4, rest⟩⟩⟩⟩⟩ <;>
    simp [startOk, argcOk, pathsOk] at h
  · obtain ⟨⟨h1, h2⟩, h3⟩ := h
    simp [main, assertOr, h1, h2, h3, mirrorsOf, renderDepth, renderFrames_eq]
  · obtain ⟨⟨h1, h2, h4⟩, h3⟩ := h
    simp [main, assertOr, h1, h2, h3, h4, mirrorsOf, renderDepth, renderFrames_eq]

theorem main_of_not_startOk (env : Env) (argv : List String) (h : startOk env argv = false) :
    (main env argv).1.nonzero ∧ (main env argv).2 = [] := by
  rcases argv with _ | ⟨a0, _ | ⟨a1, _ | ⟨a2, _ | ⟨a3, _ | ⟨a4, rest⟩⟩⟩⟩⟩
  · simp [main, assertOr, Exit.nonzero]
  · simp [main, assertOr, Exit.nonzero]
  · simp [main, assertOr, Exit.nonzero]
  · simp [startOk, argcOk, pathsOk] at h
    simp only [main, assertOr]
    by_cases h1 : env.fileExists a1 = true <;> by_cases h2 : env.fileExists a2 = true <;>
      by_cases h3 : env.checkGLVersion = true <;> simp_all [Exit.nonzero]
  · simp [startOk, argcOk, pathsOk] at h
    simp only [main, assertOr]
    by_cases h1 : env.fileExists a1 = true <;> by_cases h2 : env.fileExists a2 = true <;>
      by_cases h4 : env.fileExists a3 = true <;>
      by_cases h3 : env.checkGLVersion = true <;> simp_all [Exit.nonzero]
  · simp [main, assertOr, Exit.nonzero]

theorem main_of_oldGL (env : Env) (argv : List String)
    (h : (argcOk argv && pathsOk env argv) = true) (hv : env.checkGLVersion = false) :
    main env argv = (Exit.returned 1, []) := by
  rcases argv with _ | ⟨a0, _ | ⟨a1, _ | ⟨a2, _ | ⟨a3, _ | ⟨a4, rest⟩⟩⟩⟩⟩ <;>
    simp [argcOk, pathsOk] at h
  · obtain ⟨h1, h2⟩ := h
    simp [main, assertOr, h1, h2, hv]
  · obtain ⟨h1, h2, h4⟩ := h
    simp [main, assertOr, h1, h2, hv, h4]

theorem specRun_ne_nil (mirrors : List MirrorSurface) (P0 : Mat4) (n : ℕ) (hn : 0 < n) :
    specRun mirrors P0 n ≠ [] := by
  obtain ⟨m, rfl⟩ : ∃ m, n = m + 1 := ⟨n - 1, by omega⟩
  simp [specRun, List.range_succ, List.flatMap_append, specFrame]

/-! ### Poses along a run -/

theorem poseUpdates_append (a b : List Event) :
    poseUpdates (a ++ b) = poseUpdates a ++ poseUpdates b := by
  induction a with
  | nil => rfl
  | cons e es ih => cases e <;> simp [poseUpdates, ih]

theorem poseUpdates_specMirrors (mirrors : List MirrorSurface) (P : Mat4) :
    poseUpdates (specMirrors mirrors P) = [] := by
  unfold specMirrors
  induction mirrors.enum with
  | nil => rfl
  | cons jm l ih =>
    rw [List.flatMap_cons, poseUpdates_append, ih]
    rfl

theorem poseUpdates_specFrame (mirrors : List MirrorSurface) (i : ℕ) (P : Mat4) :
    poseUpdates (specFrame mirrors i P) = [shiftedPose P, restoredPose P, nextPose P] := by
  simp [specFrame, poseUpdates_append, poseUpdates_specMirrors, specColourPass, specDepthPass,
    poseUpdates]

theorem nextPose_eq (P : Mat4) : nextPose P = P * inverse T_new_old := by
  unfold nextPose
  rw [restoredPose_eq]

theorem specPose_eq (P0 : Mat4) (k : ℕ) : specPose P0 k = P0 * inverse T_new_old ^ k := by
  induction k with
  | zero => simp [specPose]
  | succ k ih => rw [specPose, nextPose_eq, ih, pow_succ, Matrix.mul_assoc]

theorem specRun_succ (mirrors : List MirrorSurface) (P0 : Mat4) (n : ℕ) :
    specRun mirrors P0 (n + 1) = specRun mirrors P0 n ++ specFrame mirrors n (specPose P0 n) := by
  simp [specRun, List.range_succ, List.flatMap_append]

theorem poseUpdates_specRun (mirrors : List MirrorSurface) (P0 : Mat4) (n : ℕ) :
    poseUpdates (specRun mirrors P0 n) =
      (List.range n).flatMap (fun i =>
        [shiftedPose (specPose P0 i), restoredPose (specPose P0 i), nextPose (specPose P0 i)]) := by
  induction n with
  | zero => rfl
  | succ n ih =>
    rw [specRun_succ, poseUpdates_append, ih, poseUpdates_specFrame]
    simp [List.range_succ, List.flatMap_append]

theorem digitChar_isDigit : ∀ d : ℕ, d < 10 → (Nat.digitChar d).isDigit = true := by
  decide

theorem fmt06zu_isDigit (i : ℕ) : (fmt06zu i).data.all Char.isDigit = true := by
  rw [List.all_eq_true]
  intro c hc
  simp only [fmt06zu, List.mem_append] at hc
  rcases hc with hc | hc
  · rw [(List.mem_replicate.mp hc).2]; rfl
  · unfold decimal at hc
    split at hc
    · rw [List.mem_singleton.mp hc]; rfl
    · simp only [List.mem_map, List.mem_reverse] at hc
      obtain ⟨d, hd, rfl⟩ := hc
      exact digitChar_isDigit d (Nat.digits_lt_base (by norm_num) hd)

theorem fmt06zu_length (i : ℕ) : 6 ≤ (fmt06zu i).data.length := by
  simp [fmt06zu]
  omega

/-! ## The claims -/

/-- C1, as stated, fails at the binary32 depth `0.5 - 2^-25`: it is not
negative and the sum with 0.5 is below 65536, the binary32 sum is rounded up to
1.0, so the conversion stores 1, while `floor (d + 0.5)` is 0. -/
theorem quantize_floor_fails :
    IsF32 belowHalf ∧ 0 ≤ belowHalf ∧ belowHalf + 0.5 < 65536 ∧
      quantize belowHalf = some 1 ∧ ⌊belowHalf + 0.5⌋ = 0 := by
  refine ⟨isF32_belowHalf, ?_, ?_, quantize_belowHalf, ?_⟩
  · unfold belowHalf; norm_num
  · unfold belowHalf; norm_num
  · rw [Int.floor_eq_iff]; unfold belowHalf; norm_num

/-- C1, amended: for binary32 depths `d1 ≤ d2` with `d1 ≥ 0` and
`d2 + 0.5 < 65536` the conversion is defined on both and monotone,
`quantize d1 ≤ quantize d2`; it returns `floor (d + 0.5)` for every such depth
other than `0.5 - 2^-25`, and 1 for that one.  (Taking `d2 = d1` gives the
pointwise statement.) -/
theorem quantize_floor_monotone (d1 d2 : ℚ) (hF1 : IsF32 d1) (hF2 : IsF32 d2) (h1 : 0 ≤ d1)
    (h12 : d1 ≤ d2) (h2 : d2 + 0.5 < 65536) :
    ∃ n1 n2 : ℕ, quantize d1 = some n1 ∧ quantize d2 = some n2 ∧ n1 ≤ n2 ∧
      (n1 : ℤ) = (if d1 = belowHalf then 1 else ⌊d1 + 0.5⌋) ∧
      (n2 : ℤ) = (if d2 = belowHalf then 1 else ⌊d2 + 0.5⌋) := by
  have hh : (0.5 : ℚ) = 1 / 2 := by norm_num
  rw [hh] at h2 ⊢
  have hb0 : ⌊belowHalf + 1 / 2⌋ = 0 := by
    rw [Int.floor_eq_iff]; unfold belowHalf; norm_num
  -- the value of the conversion at one depth of the range
  have key : ∀ d : ℚ, IsF32 d → 0 ≤ d → d + 1 / 2 < 65536 →
      ∃ n : ℕ, quantize d = some n ∧
        (n : ℤ) = (if d = belowHalf then 1 else ⌊d + 1 / 2⌋) := by
    intro d hF h0 h1
    by_cases hd : d = belowHalf
    · exact ⟨1, by rw [hd]; exact quantize_belowHalf, by rw [if_pos hd]; rfl⟩
    · refine ⟨⌊d + 1 / 2⌋.toNat, quantize_of_float d hF h0 h1 hd, ?_⟩
      rw [if_neg hd]
      exact Int.toNat_of_nonneg (Int.floor_nonneg.mpr (by linarith))
  obtain ⟨n1, hq1, hn1⟩ := key d1 hF1 h1 (by linarith)
  obtain ⟨n2, hq2, hn2⟩ := key d2 hF2 (by linarith) h2
  refine ⟨n1, n2, hq1, hq2, ?_, hn1, hn2⟩
  have hmono : ⌊d1 + 1 / 2⌋ ≤ ⌊d2 + 1 / 2⌋ := Int.floor_mono (by linarith)
  have hgoal : (n1 : ℤ) ≤ n2 := by
    rw [hn1, hn2]
    by_cases e1 : d1 = belowHalf
    · by_cases e2 : d2 = belowHalf
      · rw [if_pos e1, if_pos e2]
      · rw [if_pos e1, if_neg e2]
        have hlt : belowHalf < d2 := lt_of_le_of_ne (e1 ▸ h12) (Ne.symm e2)
        have hhalf := half_le_of_belowHalf_lt d2 hF2 hlt
        exact Int.le_floor.mpr (by push_cast; linarith)
    · by_cases e2 : d2 = belowHalf
      · rw [if_neg e1, if_pos e2]
        have : ⌊d1 + 1 / 2⌋ ≤ 0 := by rw [← hb0, ← e2]; exact hmono
        omega
      · rw [if_neg e1, if_neg e2]; exact hmono
  exact_mod_cast hgoal

/-- C1, amended, at the binary32 depths 0.5 and 65535.25. -/
theorem quantize_floor_monotone_witness :
    IsF32 0.5 ∧ IsF32 65535.25 ∧
    ∃ n1 n2 : ℕ, quantize 0.5 = some n1 ∧ quantize 65535.25 = some n2 ∧ n1 ≤ n2 ∧
      (n1 : ℤ) = (if (0.5 : ℚ) = belowHalf then 1 else ⌊(0.5 : ℚ) + 0.5⌋) ∧
      (n2 : ℤ) = (if (65535.25 : ℚ) = belowHalf then 1 else ⌊(65535.25 : ℚ) + 0.5⌋) :=
  have hA : IsF32 0.5 := ⟨1, -1, by norm_num, by norm_num, by norm_num, by norm_num⟩
  have hB : IsF32 65535.25 := ⟨262141, -2, by norm_num, by norm_num, by norm_num, by norm_num⟩
  ⟨hA, hB, quantize_floor_monotone 0.5 65535.25 hA hB (by norm_num) (by norm_num) (by norm_num)⟩

/-- C3: a run of `n` frames with an empty mirror list and depth output on
writes exactly the files `frame<i>_left.jpg`, `frame<i>_right.jpg`,
`depth<i>.png` for `i = 0 .. n-1`, in this order: `3 * n` names, all distinct,
of which `2 * n` are colour files and `n` are depth files.  The field `<i>`
of a name has at least six characters, all decimal digits, and reads as the
number `i`; for an index `i` below one million it is the six decimal digits
of `i`, zeros included (frame 0 gives `frame000000_left.jpg`). -/
theorem output_files (n : ℕ) (P0 : Mat4) (i : ℕ) (hi : i < 1000000) :
    savedFiles (renderFrames n true [] (initState P0)).trace
        = (List.range n).flatMap frameFiles
    ∧ (savedFiles (renderFrames n true [] (initState P0)).trace).length = 3 * n
    ∧ (savedFiles (renderFrames n true [] (initState P0)).trace).Nodup
    ∧ savedAs "RGB24" (renderFrames n true [] (initState P0)).trace
        = (List.range n).flatMap (fun j => [leftName j, rightName j])
    ∧ (savedAs "RGB24" (renderFrames n true [] (initState P0)).trace).length = 2 * n
    ∧ savedAs "GRAY16LE" (renderFrames n true [] (initState P0)).trace
        = (List.range n).map depthName
    ∧ (savedAs "GRAY16LE" (renderFrames n true [] (initState P0)).trace).length = n
    ∧ (∀ j : ℕ, 6 ≤ (fmt06zu j).data.length ∧ (fmt06zu j).data.all Char.isDigit = true
        ∧ decode (fmt06zu j).data = j)
    ∧ leftName i = "frame" ++ sixDigits i ++ "_left.jpg"
    ∧ rightName i = "frame" ++ sixDigits i ++ "_right.jpg"
    ∧ depthName i = "depth" ++ sixDigits i ++ ".png"
    ∧ leftName 0 = "frame000000_left.jpg" := by
  rw [renderFrames_eq]
  refine ⟨savedFiles_specRun _ _ _, ?_, ?_, savedAs_rgb_specRun _ _ _, ?_,
    savedAs_gray_specRun _ _ _, ?_,
    fun j => ⟨fmt06zu_length j, fmt06zu_isDigit j, decode_fmt06zu j⟩, ?_, ?_, ?_, by decide⟩
  · rw [savedFiles_specRun]; exact length_flatMap_frameFiles n
  · rw [savedFiles_specRun]; exact nodup_flatMap_frameFiles n
  · rw [savedAs_rgb_specRun]; exact length_flatMap_colour n
  · rw [savedAs_gray_specRun]; simp
  · rw [leftName, fmt06zu_sixDigits i hi]
  · rw [rightName, fmt06zu_sixDigits i hi]
  · rw [depthName, fmt06zu_sixDigits i hi]

/-- C3 for a run of 100 frames, at index 99. -/
theorem output_files_witness :
    99 < 1000000 ∧ leftName 99 = "frame" ++ sixDigits 99 ++ "_left.jpg" :=
  ⟨by decide, (output_files 100 lookAtPose 99 (by decide)).2.2.2.2.2.2.2.2.1⟩

/-- C5: for every two mirror lists, the same initial pose and the same frame
count, the two runs have the same depth-pass spans (from the bind of the depth
target to the save of the depth file); the span of frame `k` is the bind,
viewport, clear, cull, `RenderDepth` with the pose `P0 * (S⁻¹)^k` and the
scale `65535 * 0.1`, unbind, download, conversion and save of `depth<k>.png`;
and no span holds a call into the mirror renderer. -/
theorem depth_independent_of_mirrors (m1 m2 : List MirrorSurface) (P0 : Mat4) (n : ℕ) :
    depthSpans (renderFrames n renderDepth m1 (initState P0)).trace
        = depthSpans (renderFrames n renderDepth m2 (initState P0)).trace
    ∧ depthSpans (renderFrames n renderDepth m1 (initState P0)).trace
        = (List.range n).map (fun k => specDepthPass k (P0 * inverse T_new_old ^ k))
    ∧ (depthSpans (renderFrames n renderDepth m1 (initState P0)).trace).all
        (fun span => span.all (fun e => !e.isMirror)) = true := by
  have key : ∀ m : List MirrorSurface,
      depthSpans (renderFrames n renderDepth m (initState P0)).trace
        = (List.range n).map (fun k => specDepthPass k (P0 * inverse T_new_old ^ k)) := by
    intro m
    simp only [renderDepth, renderFrames_eq, depthSpans_specRun, restoredPose_eq, specPose_eq]
  refine ⟨by rw [key m1, key m2], key m1, ?_⟩
  rw [key m1, List.all_eq_true]
  intro span hspan
  obtain ⟨k, _, rfl⟩ := List.mem_map.mp hspan
  exact noMirror_specDepthPass k _

/-- C6: a run issues a call or writes a file only if the argument count is 3
or 4, every given path exists and the graphics version check passes; every
other start ends with a non-zero status, no call issued and no file written;
an argument count other than 3 and 4 aborts; when the argument count and the
paths are in order and only the version check fails, the status is 1; and a
start that passes every check does issue calls. -/
theorem fail_fast_startup (env : Env) (argv : List String) :
    ((main env argv).2 ≠ [] →
        (argv.length = 3 ∨ argv.length = 4) ∧ (∀ p ∈ argv.tail, env.fileExists p = true) ∧
          env.checkGLVersion = true) ∧
    (startOk env argv = false →
        (main env argv).1.nonzero ∧ (main env argv).2 = [] ∧
          savedFiles (main env argv).2 = []) ∧
    (argv.length ≠ 3 ∧ argv.length ≠ 4 → main env argv = (Exit.aborted, [])) ∧
    ((argcOk argv && pathsOk env argv) = true → env.checkGLVersion = false →
        (main env argv).1 = Exit.returned 1) ∧
    (startOk env argv = true → (main env argv).2 ≠ []) := by
  refine ⟨?_, ?_, ?_, ?_, ?_⟩
  · intro h
    cases hs : startOk env argv with
    | false => exact absurd (main_of_not_startOk env argv hs).2 h
    | true =>
      simp only [startOk, argcOk, pathsOk, Bool.and_eq_true, Bool.or_eq_true, beq_iff_eq,
        List.all_eq_true] at hs
      exact ⟨hs.1.1, hs.1.2, hs.2⟩
  · intro h
    have := main_of_not_startOk env argv h
    exact ⟨this.1, this.2, by rw [this.2]; rfl⟩
  · intro h
    simp [main, assertOr, h.1, h.2]
  · intro h hv
    rw [main_of_oldGL env argv h hv]
  · intro h
    rw [main_of_startOk env argv h]
    exact specRun_ne_nil _ _ _ (by decide)

/-- C6 at five starts: two and five arguments abort, a missing mesh file
ends with a non-zero status and no call, a failed version check returns 1, and
a start that issues calls has three arguments, existing paths and a passed
version check. -/
theorem fail_fast_startup_witness :
    main sampleEnv ["render", "mesh.ply"] = (Exit.aborted, []) ∧
    main sampleEnv ["render", "mesh.ply", "atlases", "mirrors.json", "extra"]
      = (Exit.aborted, []) ∧
    ((main noFilesEnv ["render", "mesh.ply", "atlases"]).1.nonzero ∧
      (main noFilesEnv ["render", "mesh.ply", "atlases"]).2 = [] ∧
      savedFiles (main noFilesEnv ["render", "mesh.ply", "atlases"]).2 = []) ∧
    (main oldGLEnv ["render", "mesh.ply", "atlases"]).1 = Exit.returned 1 ∧
    (main sampleEnv ["render", "mesh.ply", "atlases"]).2 ≠ [] ∧
    ((["render", "mesh.ply", "atlases"].length = 3 ∨
        ["render", "mesh.ply", "atlases"].length = 4) ∧
      (∀ p ∈ ["render", "mesh.ply", "atlases"].tail, sampleEnv.fileExists p = true) ∧
      sampleEnv.checkGLVersion = true) :=
  ⟨(fail_fast_startup sampleEnv ["render", "mesh.ply"]).2.2.1 (by decide),
   (fail_fast_startup sampleEnv ["render", "mesh.ply", "atlases", "mirrors.json", "extra"]).2.2.1
     (by decide),
   (fail_fast_startup noFilesEnv ["render", "mesh.ply", "atlases"]).2.1 rfl,
   (fail_fast_startup oldGLEnv ["render", "mesh.ply", "atlases"]).2.2.2.1 rfl rfl,
   (fail_fast_startup sampleEnv ["render", "mesh.ply", "atlases"]).2.2.2.2 rfl,
   (fail_fast_startup sampleEnv ["render", "mesh.ply", "atlases"]).1
     ((fail_fast_startup sampleEnv ["render", "mesh.ply", "atlases"]).2.2.2.2 rfl)⟩

/-- C7: for every mirror list, the frame loop run for `n` frames issues, for
`i = 0, 1, .., n-1` in this order, exactly the calls of the state machine for
frame `i`: left colour pass, mirrors for the left pose, download and save of
the left image, stereo shift, right colour pass, mirrors for the right pose,
download and save of the right image, restore, depth pass with the save of
the depth image, trajectory advance; each single frame body, entered with pose
`P`, appends the calls of that frame and leaves the pose `nextPose P`; and a
run of `main` that passes the start-up checks issues these calls for the
frames `0 .. numFrames - 1` and returns exit code 0. -/
theorem frame_pass_order (mirrors : List MirrorSurface) (P0 : Mat4) (n : ℕ) (env : Env)
    (argv : List String) (h : startOk env argv = true) :
    renderFrames n renderDepth mirrors (initState P0)
        = { T_camera_world := specPose P0 n, s_cam := specPose P0 n,
            trace := (List.range n).flatMap (fun i => specFrame mirrors i (specPose P0 i)) }
    ∧ (∀ (i : ℕ) (P : Mat4) (tr : List Event),
        frameBody mirrors renderDepth i { T_camera_world := P, s_cam := P, trace := tr }
          = { T_camera_world := nextPose P, s_cam := nextPose P,
              trace := tr ++ specFrame mirrors i P })
    ∧ main env argv
        = (Exit.returned 0,
            (List.range numFrames).flatMap
              (fun i => specFrame (mirrorsOf env argv) i (specPose env.lookAt i))) :=
  ⟨renderFrames_eq mirrors P0 n, fun i P tr => frameBody_eq mirrors i P tr,
    main_of_startOk env argv h⟩

/-- C7 for the sample start with three arguments: the run returns exit code 0. -/
theorem frame_pass_order_witness :
    startOk sampleEnv ["render", "mesh.ply", "atlases"] = true ∧
    (main sampleEnv ["render", "mesh.ply", "atlases"]).1 = Exit.returned 0 :=
  ⟨rfl, by
    rw [(frame_pass_order [] lookAtPose 1 sampleEnv ["render", "mesh.ply", "atlases"] rfl).2.2]⟩

/-- C8: for every mirror list and every state in which a colour pass has just
ended, the mirror loop leaves the pose as it is and appends exactly, for
`j = 0, 1, ..` in input order, the block of mirror `j`: capture of mirror `j`,
bind of the colour target, viewport, draw of mirror `j` with mask `j`, unbind
(with the viewport attribute saved after the bind and restored before the
unbind); along a whole run every capture is issued while the colour target is
not bound; and for the empty list the loop does nothing, so the run issues the
calls of the pipeline without the mirror steps. -/
theorem mirror_protocol (mirrors : List MirrorSurface) (s : State) (P0 : Mat4) (n : ℕ) :
    mirrorLoop mirrors s
        = { s with trace := s.trace ++
              mirrors.enum.flatMap (fun jm => specMirrorBlock s.s_cam jm.1 jm.2) }
    ∧ dropBrackets (mirrors.enum.flatMap (fun jm => specMirrorBlock s.s_cam jm.1 jm.2))
        = mirrors.enum.flatMap (fun jm =>
            [Event.captureReflection jm.2 s.s_cam, Event.bind Target.colour,
              Event.viewport 848 800, Event.renderMirror jm.2 jm.1 s.s_cam,
              Event.unbind Target.colour])
    ∧ capturesUnbound false (renderFrames n renderDepth mirrors (initState P0)).trace = true
    ∧ capturesUnbound false
        [Event.bind Target.colour, Event.captureReflection (MirrorSurface.mk "m") P0] = false
    ∧ mirrorLoop [] s = s
    ∧ (renderFrames n renderDepth [] (initState P0)).trace
        = (List.range n).flatMap (fun i => frameWithoutMirrors i (specPose P0 i)) := by
  refine ⟨mirrorLoop_eq mirrors s, dropBrackets_specMirrors mirrors s.s_cam, ?_, rfl, rfl, ?_⟩
  · simp only [renderDepth, renderFrames_eq]
    exact capturesUnbound_flatMap mirrors (specPose P0) (List.range n)
  · simp only [renderDepth, renderFrames_eq, specRun, specFrame_nil]

/-- C9: the calls of every run (any mirror list, any frame count) are
balanced: a target is bound only while none is bound, each bind is followed by
the save of the viewport, its restore and the unbind of the same target, no
target is bound at a download, at the conversion, at a file save or at a pose
update, and none is bound at the end.  The check rejects a trace that leaves a
target bound, one that binds a second target, and one that downloads while a
target is bound. -/
theorem balanced_binding (mirrors : List MirrorSurface) (P0 : Mat4) (n : ℕ) :
    balanced (renderFrames n renderDepth mirrors (initState P0)).trace = true
    ∧ balanced [Event.bind Target.colour, Event.pushViewport, Event.popViewport] = false
    ∧ balanced [Event.bind Target.colour, Event.bind Target.depth] = false
    ∧ balanced [Event.bind Target.colour, Event.pushViewport, Event.popViewport,
        Event.unbind Target.depth] = false
    ∧ balanced [Event.bind Target.colour, Event.unbind Target.colour] = false
    ∧ balanced [Event.bind Target.depth, Event.pushViewport,
        Event.download Target.depth, Event.popViewport, Event.unbind Target.depth] = false := by
  refine ⟨?_, rfl, rfl, rfl, rfl, rfl⟩
  simp only [renderDepth, renderFrames_eq, balanced, bindRun_specRun]
  rfl

/-- C10: the claim fails on the code.  The look-at pose of line 69 is a rigid
transform, but the step `T_new_old` is not: the determinant of its 3x3 block
is `0.9961f^2 + 0.0871f^2`, about 0.99980 and below 0.9999.  Already in a run
of one frame the pose assigned by the trajectory advance (line 214) is not a
rigid transform: the determinant of its 3x3 block, about 1.0001984, is above
1.0001. -/
theorem pose_not_rigid :
    IsRigid lookAtPose ∧ ¬ IsRigid T_new_old ∧ (rot3 T_new_old).det < 0.9999 ∧
    ∃ p ∈ poseUpdates (renderFrames 1 renderDepth [] (initState lookAtPose)).trace,
      ¬ IsRigid p ∧ 1.0001 < (rot3 p).det := by
  have hT : (rot3 T_new_old).det < 0.9999 := by rw [det_rot3_T_new_old]; norm_num
  have hdet : (rot3 (nextPose lookAtPose)).det = stepScale := by
    rw [nextPose_eq, inverse_T_new_old, rot3_mul _ _ bottomRow_S_inv, Matrix.det_mul,
      isRigid_lookAtPose.2.1, det_rot3_S_inv, one_mul]
  have hs : 1.0001 < (rot3 (nextPose lookAtPose)).det := by
    rw [hdet, stepScale_eq]; norm_num
  refine ⟨isRigid_lookAtPose, fun h => ?_, hT, nextPose lookAtPose, ?_, fun h => ?_, hs⟩
  · rw [h.2.1] at hT; norm_num at hT
  · simp only [renderDepth, renderFrames_eq]
    rw [poseUpdates_specRun]
    simp [specPose]
  · rw [h.2.1] at hs; norm_num at hs

end Replica
